import Mathlib

/-!
Verification of the clawstr-skill-orchestrator core pipeline
(src/orchestrator.py and src/utils/nlp_helper.py) against its
natural-language specification.

The embedding is shallow and executable:

* Python strings are Lean `String`s (`String.data : List Char` in this
  toolchain), and the Python primitives the source relies on
  (`str.strip`, `int(...)`, `str.split`, `max` over strings, `dict`
  iteration order, `set` deduplication) are modelled by the explicit
  char-level functions below.
* The sentence-embedding similarity matrix produced by the external
  `sentence-transformers` model is an opaque numeric input: clustering
  is parametrised by `sim : Nat → Nat → ℚ` giving the entry
  `similarity_matrix[i][j]` for record indices `i`, `j`, and by the
  threshold.  All clustering claims are statements about the greedy
  grouping given an arbitrary matrix, exactly as in the source.
* Filesystem effects are modelled by explicit data: discovery is
  parametrised by the list of parsed records, file existence by a
  predicate `fileExists : String → Bool` frozen at the start of the
  archive loop (source paths are pairwise distinct within a run, so the
  renames performed by the loop never change the existence of another
  record's source file), and `Path.rename` / `write_text` by the pure
  path values the source appends to its result lists.
* `datetime.now().isoformat()` is an explicit `now : String` parameter.
-/

/-! ### Python primitive models -/

/-- Whitespace as recognised by Python `str.strip()` / `int()` for the
ASCII range (space, tab, newline, carriage return, vertical tab, form feed). -/
def pyIsSpace (c : Char) : Bool :=
  c = ' ' || c = '\t' || c = '\n' || c = '\r' || c = '\x0b' || c = '\x0c'

/-- Python `str.strip()` on a char list: drop leading and trailing whitespace. -/
def pyStrip (l : List Char) : List Char :=
  ((l.dropWhile pyIsSpace).reverse.dropWhile pyIsSpace).reverse

/-- Python `str.strip()` on strings. -/
def pyStripStr (s : String) : String := ⟨pyStrip s.data⟩

/-- Value of a decimal digit character, if it is one. -/
def digitVal (c : Char) : Option Nat :=
  if c.isDigit then some (c.toNat - 48) else none

/-- Digit tail of a Python integer literal: decimal digits with single
underscores allowed between digits (CPython `int` grammar). `acc` is the
value of the digits already consumed. -/
def pyDigitsAux : Nat → List Char → Option Nat
  | acc, [] => some acc
  | acc, c :: rest =>
    if c = '_' then
      match rest with
      | [] => none
      | c2 :: rest2 =>
        match digitVal c2 with
        | some d => pyDigitsAux (acc * 10 + d) rest2
        | none => none
    else
      match digitVal c with
      | some d => pyDigitsAux (acc * 10 + d) rest
      | none => none

/-- A nonempty all-digit (with inner underscores) char sequence as a `Nat`. -/
def pyNatOfChars : List Char → Option Nat
  | [] => none
  | c :: rest =>
    match digitVal c with
    | some d => pyDigitsAux d rest
    | none => none

/-- Model of Python `int(s)` for decimal literals: surrounding whitespace is
stripped, an optional single sign is allowed, then digits. -/
def pyIntChars : List Char → Option Int
  | [] => none
  | c :: rest =>
    if c = '+' then (pyNatOfChars rest).map Int.ofNat
    else if c = '-' then (pyNatOfChars rest).map (fun n => -(n : Int))
    else (pyNatOfChars (c :: rest)).map Int.ofNat

def pyInt (s : String) : Option Int := pyIntChars (pyStrip s.data)

/-- Python `s.split(sep)` for a single-character separator: split at every
occurrence, keeping empty pieces (`"".split(".") == [""]`). `cur` holds the
current piece reversed. -/
def splitOnCharAux (sep : Char) (cur : List Char) : List Char → List (List Char)
  | [] => [cur.reverse]
  | c :: rest =>
    if c = sep then cur.reverse :: splitOnCharAux sep [] rest
    else splitOnCharAux sep (c :: cur) rest

/-- Python `s.split(sep)` on strings, single-character separator. -/
def pySplitOn (sep : Char) (s : String) : List String :=
  (splitOnCharAux sep [] s.data).map fun l => ⟨l⟩

/-- Python `<` on strings: lexicographic comparison of code points,
a strict prefix is smaller. -/
def pyStrLtChars : List Char → List Char → Bool
  | [], [] => false
  | [], _ :: _ => true
  | _ :: _, [] => false
  | a :: as, b :: bs =>
    if a.toNat < b.toNat then true
    else if b.toNat < a.toNat then false
    else pyStrLtChars as bs

/-- Python `s < t` on strings. -/
def pyStrLt (s t : String) : Bool := pyStrLtChars s.data t.data

/-- Python `max(iterable, default=d)` over strings: the default is returned
for an empty iterable, otherwise a later element replaces the current
maximum only when strictly greater. -/
def pyMax (d : String) : List String → String
  | [] => d
  | x :: xs => xs.foldl (fun acc y => if pyStrLt acc y then y else acc) x

/-- First-occurrence deduplication with an explicit `seen` set, modelling the
`seen = set(); for x in l: if x not in seen: ...` loops of the source and
(as a deterministic order choice) Python `list(set(l))`. -/
def dedupSeen {α : Type} [DecidableEq α] (seen : List α) : List α → List α
  | [] => []
  | x :: rest =>
    if x ∈ seen then dedupSeen seen rest
    else x :: dedupSeen (x :: seen) rest

/-- The description-merge loop of `_merge_descriptions`: skip empty strings
and strings already seen (`if desc and desc not in seen`). -/
def dedupLoopNE (seen : List String) : List String → List String
  | [] => []
  | d :: rest =>
    if d ≠ "" ∧ d ∉ seen then d :: dedupLoopNE (d :: seen) rest
    else dedupLoopNE seen rest

/-! ### Data model -/

/-- A parsed skill record as produced by `_parse_skill_file` (the raw
frontmatter mapping is not carried here; it is only needed for the
writer round-trip, which has its own parsed-record type below). -/
structure SkillRecord where
  name : String
  description : String
  version : String
  author : String
  category : String
  tags : List String
  body : String
  file_path : String
deriving DecidableEq, Repr

/-- The consolidated master skill built by `consolidate_cluster`.
`consolidated_at` carries the `datetime.now().isoformat()` value. -/
structure MasterSkill where
  name : String
  description : String
  version : String
  author : String
  category : String
  tags : List String
  merged_from : List String
  consolidated_at : String
  body : String
deriving DecidableEq, Repr

/-! ### Consolidation phase (`src/orchestrator.py`) -/

/-- The version parse inside `_increment_version`:
`parts = version_str.split("."); int(parts[0]), int(parts[1]), int(parts[2])`.
`none` models the caught exception (missing part or failed `int`).
Components beyond the third are ignored, as in the source. -/
def parseVersionPy (version_str : String) : Option (Int × Int × Int) :=
  let parts := pySplitOn '.' version_str
  match parts[0]?, parts[1]?, parts[2]? with
  | some p0, some p1, some p2 =>
    match pyInt p0, pyInt p1, pyInt p2 with
    | some major, some minor, some patch => some (major, minor, patch)
    | _, _, _ => none
  | _, _, _ => none

/-- `_increment_version`: bump the patch component, falling back to
`"1.0.1"` when parsing fails (the `except` branch). -/
def _increment_version (version_str : String) : String :=
  match parseVersionPy version_str with
  | some (major, minor, patch) =>
    toString major ++ "." ++ toString minor ++ "." ++ toString (patch + 1)
  | none => "1.0.1"

/-- `_merge_descriptions`: keep records with a truthy description, strip
each, then drop empties and duplicates in first-occurrence order and join
with a single space. -/
def _merge_descriptions (skills : List SkillRecord) : String :=
  String.intercalate " "
    (dedupLoopNE []
      ((skills.filter (fun s => s.description ≠ "")).map fun s => pyStripStr s.description))

/-- Does the char sequence begin with one or more `#` followed by a
whitespace char?  This is the `(?=#+\s)` lookahead of `_merge_bodies`. -/
def headsHeading : List Char → Bool
  | '#' :: rest => headsHeadingTail rest
  | _ => false
where
  headsHeadingTail : List Char → Bool
    | '#' :: rest => headsHeadingTail rest
    | c :: _ => pyIsSpace c
    | [] => false

/-- `re.split(r"\n(?=#+\s)", body)`: cut before every newline that is
followed by a heading marker; the newline itself is consumed. `acc` holds
the current section reversed. -/
def splitSecAux (acc : List Char) : List Char → List (List Char)
  | [] => [acc.reverse]
  | '\n' :: rest =>
    if headsHeading rest then acc.reverse :: splitSecAux [] rest
    else splitSecAux ('\n' :: acc) rest
  | c :: rest => splitSecAux (c :: acc) rest

/-- Section split of a body string. -/
def splitSections (body : String) : List String :=
  (splitSecAux [] body.data).map fun l => ⟨l⟩

/-- `_merge_bodies`: collect truthy bodies, split each into sections at
heading boundaries, strip and drop empty sections, deduplicate across all
sources in first-seen order, and join under the fixed heading. -/
def _merge_bodies (skills : List SkillRecord) : String :=
  let bodies := (skills.filter (fun s => s.body ≠ "")).map (fun s => s.body)
  if bodies = [] then "# Consolidated Workflow\n\nNo body content found."
  else
    let all_sections :=
      (bodies.map (fun b => ((splitSections b).map pyStripStr).filter (fun s => s ≠ ""))).flatten
    "# Consolidated Workflow\n\n" ++ String.intercalate "\n\n" (dedupSeen [] all_sections)

/-- `consolidate_cluster` on the member list of one cluster (the source
resolves `cluster_id` in `self.clusters` first; a missing id also yields
`None`).  Clusters of size ≤ 1 are skipped.  `now` is the timestamp. -/
def consolidate_cluster (now : String) (skills : List SkillRecord) : Option MasterSkill :=
  if skills.length ≤ 1 then none
  else
    match skills with
    | [] => none
    | s0 :: _ =>
      let master_name := s0.name ++ "_Master"
      let master_version :=
        _increment_version (pyMax "1.0.0" (skills.map (fun s => s.version)))
      some
        { name := master_name
          description := _merge_descriptions skills
          version := master_version
          author := "Clawstr Orchestrator"
          category := s0.category
          tags := dedupSeen [] ((skills.map (fun s => s.tags)).flatten)
          merged_from := skills.map (fun s => s.name)
          consolidated_at := now
          body := _merge_bodies skills }

/-! ### Clustering phase (`src/utils/nlp_helper.py`, `cluster_skills`)

The greedy loop is embedded over record indices `0, …, n-1` (the rows of
`similarity_matrix`); `sim i j` is the matrix entry and `t` the threshold.
`seedsBelow`/`isSeed`/`seedOf` are the declarative description of the same
process used to state and prove its properties: an index is a seed iff no
earlier seed reaches it with similarity ≥ t, and a non-seed is grabbed by
its least reaching seed. -/

/-- The seeds (cluster openers) among `0, …, n-1`, in increasing order:
`j` is a seed iff every seed `i < j` has `sim i j < t`. -/
def seedsBelow (sim : Nat → Nat → ℚ) (t : ℚ) : Nat → List Nat
  | 0 => []
  | j + 1 =>
    seedsBelow sim t j ++
      (if (seedsBelow sim t j).all (fun i => decide (sim i j < t)) then [j] else [])

/-- `j` opens its own cluster. -/
def isSeed (sim : Nat → Nat → ℚ) (t : ℚ) (j : Nat) : Bool :=
  (seedsBelow sim t j).all (fun i => decide (sim i j < t))

/-- The seed whose cluster `j` ends up in: the least seed `i < j` with
`sim i j ≥ t`, or `j` itself when `j` is a seed. -/
def seedOf (sim : Nat → Nat → ℚ) (t : ℚ) (j : Nat) : Nat :=
  match (seedsBelow sim t j).filter (fun i => decide (t ≤ sim i j)) with
  | [] => j
  | i :: _ => i

/-- The members the greedy pass assigns to the cluster of seed `i`
besides `i` itself. -/
def followers (sim : Nat → Nat → ℚ) (t : ℚ) (n i : Nat) : List Nat :=
  (List.range n).filter fun j => !(isSeed sim t j) && decide (seedOf sim t j = i)

/-- The inner loop of `cluster_skills` for seed `i`:
`for j in range(i + 1, n): if j not in assigned and sim[i][j] >= t`. -/
def memsOf (sim : Nat → Nat → ℚ) (t : ℚ) (n : Nat) (assigned : List Nat) (i : Nat) :
    List Nat :=
  (List.range' (i + 1) (n - (i + 1))).filter fun j =>
    decide (j ∉ assigned) && decide (t ≤ sim i j)

/-- The outer loop of `cluster_skills`: iterate the pending indices in
order; a pending index already in `assigned` is skipped; otherwise it seeds
a new cluster and grabs every later unassigned `j` with `sim i j ≥ t`. -/
def clusterGoAux (sim : Nat → Nat → ℚ) (t : ℚ) (n : Nat) :
    List Nat → List Nat → List (List Nat)
  | [], _ => []
  | i :: rest, assigned =>
    if i ∈ assigned then clusterGoAux sim t n rest assigned
    else
      (i :: memsOf sim t n assigned i) ::
        clusterGoAux sim t n rest (assigned ++ i :: memsOf sim t n assigned i)

/-- The clusters over indices `0, …, n-1`, in discovery order. -/
def clusterIdx (sim : Nat → Nat → ℚ) (t : ℚ) (n : Nat) : List (List Nat) :=
  clusterGoAux sim t n (List.range n) []

/-- Attach the sequential ids `cluster_k` in discovery order, starting
from counter value `k` (the source's `cluster_id` counter). -/
def attachClusterIds {α : Type} (k : Nat) : List (List α) → List (String × List α)
  | [] => []
  | c :: rest => ("cluster_" ++ toString k, c) :: attachClusterIds (k + 1) rest

/-- Fallback record for the (never reached) out-of-range index lookup. -/
def noRecord : SkillRecord := ⟨"", "", "", "", "", [], "", ""⟩

/-- `NLPHelper.cluster_skills`: empty input yields an empty mapping;
otherwise the greedy index clusters, with each index replaced by its
record and ids attached in discovery order. -/
def cluster_skills (skills : List SkillRecord) (sim : Nat → Nat → ℚ) (t : ℚ) :
    List (String × List SkillRecord) :=
  if skills = [] then []
  else
    attachClusterIds 0
      ((clusterIdx sim t skills.length).map fun c => c.map fun j => skills.getD j noRecord)

/-! ### Archiving phase (`archive_original_skills`) -/

/-- `os.path` basename as used by `Path(...).name` on the forward-slash
paths produced by discovery: the part after the last `/`. -/
def basename (p : String) : String :=
  ⟨(p.data.reverse.takeWhile (fun c => c ≠ '/')).reverse⟩

/-- The records the archive loop moves: discovered records whose name is in
`skill_names` and whose source file exists. -/
def archiveSelection (fileExists : String → Bool) (discovered : List SkillRecord)
    (skill_names : List String) : List SkillRecord :=
  discovered.filter fun s => decide (s.name ∈ skill_names) && fileExists s.file_path

/-- `archive_original_skills`: iterate the discovered records; a record
whose name is listed and whose file exists is renamed into the archive
directory under its basename and its destination recorded.  `fileExists`
is file existence at the start of the loop (source paths are pairwise
distinct within a run, so the loop's renames cannot affect later checks). -/
def archive_original_skills (fileExists : String → Bool) (archive_path : String)
    (discovered : List SkillRecord) (skill_names : List String) : List String :=
  match discovered with
  | [] => []
  | s :: rest =>
    if s.name ∈ skill_names ∧ fileExists s.file_path = true then
      (archive_path ++ "/" ++ basename s.file_path) ::
        archive_original_skills fileExists archive_path rest skill_names
    else archive_original_skills fileExists archive_path rest skill_names

/-! ### Full workflow (`run_full_orchestration`) -/

/-- A value of the run-summary mapping. -/
inductive SVal where
  | s (v : String)
  | n (v : Nat)
  | l (v : List String)
deriving DecidableEq, Repr

/-- Association-list lookup (first match), modelling Python dict access. -/
def alookup {α : Type} (m : List (String × α)) (k : String) : Option α :=
  match m with
  | [] => none
  | (k0, v) :: rest => if k0 = k then some v else alookup rest k

/-- Phase 3 of the run: walk the clusters in order; every cluster of size
> 1 is consolidated, its master appended and its member names marked
archivable. Returns `(consolidated, archivable_skills)`. -/
def consolidationPhase (now : String) :
    List (String × List SkillRecord) → List MasterSkill × List String
  | [] => ([], [])
  | (_, cskills) :: rest =>
    if 1 < cskills.length then
      match consolidate_cluster now cskills with
      | some master =>
        (master :: (consolidationPhase now rest).1,
         (cskills.map fun s => s.name) ++ (consolidationPhase now rest).2)
      | none => consolidationPhase now rest
    else consolidationPhase now rest

/-- `run_full_orchestration`, with discovery abstracted to the list of
successfully parsed records (per-file parse failures are already absent),
publishing modelled as always succeeding (its result path is
`<skills_dir>/<name>.md`), and git phases out of scope.  The result is the
returned summary dict in insertion order. -/
def run_full_orchestration (sim : Nat → Nat → ℚ) (t : ℚ) (fileExists : String → Bool)
    (archive_dir : String) (skills_dir : String) (now : String)
    (skills : List SkillRecord) : List (String × SVal) :=
  if skills = [] then
    [("status", SVal.s "no_skills_found"), ("skills_discovered", SVal.n 0)]
  else
    let clusters := cluster_skills skills sim t
    let phase3 := consolidationPhase now clusters
    let published := phase3.1.map fun m => skills_dir ++ "/" ++ m.name ++ ".md"
    let archived := archive_original_skills fileExists archive_dir skills phase3.2
    [("status", SVal.s "success"),
     ("skills_discovered", SVal.n skills.length),
     ("clusters_created", SVal.n clusters.length),
     ("skills_consolidated", SVal.n phase3.1.length),
     ("skills_published", SVal.n published.length),
     ("skills_archived", SVal.n archived.length),
     ("published_files", SVal.l published),
     ("archived_files", SVal.l archived)]

/-! ### Document writer and parser (`publish_consolidated_skill`, `_parse_skill_file`)

The structured header is serialised and re-read through the external
`yaml` library.  Modelled from the spec: the header is a `key: value`
block (section 6), with values as written by the Writer — plain scalars on
one line (an empty string rendered as a quoted pair of apostrophes by
`yaml.dump`) and string lists in block style (`key:` followed by `- item`
lines, an empty list as `key: []`).  The loader below inverts exactly this
subset; hypotheses on the round-trip theorem keep scalars inside it. -/

/-- An apostrophe (avoiding a quoted literal). -/
def squote : Char := Char.ofNat 39

/-- A header value in the Writer's subset: a string scalar or a string list. -/
inductive YVal where
  | s (v : String)
  | l (v : List String)
deriving DecidableEq, Repr

/-- Scalar rendering of `yaml.dump`: an empty string is written as two
apostrophes, other plain scalars are written verbatim. -/
def dumpScalarChars (v : String) : List Char :=
  if v = "" then [squote, squote] else v.data

/-- Inverse of `dumpScalarChars` on the Writer's subset. -/
def loadScalar (v : List Char) : String :=
  if v = [squote, squote] then "" else ⟨v⟩

/-- The header lines `yaml.dump(metadata, default_flow_style=False,
sort_keys=False)` emits for one entry, without their trailing newlines. -/
def dumpEntryLines : String × YVal → List (List Char)
  | (k, YVal.s v) => [k.data ++ ':' :: ' ' :: dumpScalarChars v]
  | (k, YVal.l []) => [k.data ++ ':' :: ' ' :: '[' :: [']']]
  | (k, YVal.l vs) => (k.data ++ [':']) :: vs.map fun v => '-' :: ' ' :: v.data

/-- All header lines of a metadata mapping, in insertion order. -/
def dumpLines (m : List (String × YVal)) : List (List Char) :=
  (m.map dumpEntryLines).flatten

/-- Lines joined with a newline after each (the raw `yaml.dump` text). -/
def yamlDumpChars (m : List (String × YVal)) : List Char :=
  ((dumpLines m).map fun l => l ++ ['\n']).flatten

/-- Lines joined with a newline between them (no trailing newline). -/
def interNL : List (List Char) → List Char
  | [] => []
  | [l] => l
  | l :: rest => l ++ '\n' :: interNL rest

/-- The metadata dict built for the master skill by `consolidate_cluster`
and serialised by `publish_consolidated_skill`, in insertion order. -/
def masterMetadata (m : MasterSkill) : List (String × YVal) :=
  [("name", YVal.s m.name),
   ("description", YVal.s m.description),
   ("version", YVal.s m.version),
   ("author", YVal.s m.author),
   ("category", YVal.s m.category),
   ("tags", YVal.l m.tags),
   ("merged_from", YVal.l m.merged_from)]

/-- The file text written by `publish_consolidated_skill`:
`f"---\n{yaml_content}---\n\n{body}\n"`. -/
def publish_content (m : MasterSkill) : String :=
  ⟨'-' :: '-' :: '-' :: '\n' ::
    (yamlDumpChars (masterMetadata m) ++
      '-' :: '-' :: '-' :: '\n' :: '\n' :: (m.body.data ++ ['\n']))⟩

/-- Scan for the first occurrence of the five-character sequence
newline-dash-dash-dash-newline, returning the text before it and after it.
This is the non-greedy `(.*?)\n---\n(.*)` step of the frontmatter regex. -/
def splitAtMarker : List Char → Option (List Char × List Char)
  | [] => none
  | c :: rest =>
    if c = '\n' ∧ rest.take 4 = ['-', '-', '-', '\n'] then some ([], rest.drop 4)
    else (splitAtMarker rest).map fun p => (c :: p.1, p.2)

/-- `re.match(r"^---\n(.*?)\n---\n(.*)", content, re.DOTALL)`: the document
must begin with the marker line, and the header is everything up to the
first newline-delimited marker line. -/
def splitFrontmatter : List Char → Option (List Char × List Char)
  | '-' :: '-' :: '-' :: '\n' :: rest => splitAtMarker rest
  | _ => none

/-- Split a char sequence into its newline-separated lines. -/
def splitLinesAux (cur : List Char) : List Char → List (List Char)
  | [] => [cur.reverse]
  | c :: rest =>
    if c = '\n' then cur.reverse :: splitLinesAux [] rest
    else splitLinesAux (c :: cur) rest

/-- All lines of a header block (which carries no trailing newline). -/
def splitLines (l : List Char) : List (List Char) := splitLinesAux [] l

/-- Split a header line at the first colon that ends the key (followed by
a space, or closing the line). -/
def splitKVChars : List Char → Option (List Char × List Char)
  | [] => none
  | c :: rest =>
    if c = ':' then
      match rest with
      | [] => some ([], [])
      | ' ' :: rest2 => some ([], rest2)
      | _ => (splitKVChars rest).map fun p => (c :: p.1, p.2)
    else (splitKVChars rest).map fun p => (c :: p.1, p.2)

/-- Process one header line given the state `acc = (pending items, parsed
entries)` accumulated from the lines below it: `- item` lines pile up in
`pending` until the `key:` line that owns them; scalar and `key: []` lines
require no pending items. -/
def loadLine (l : List Char) (acc : List String × List (String × YVal)) :
    Option (List String × List (String × YVal)) :=
  if l.take 2 = ['-', ' '] then some (loadScalar (l.drop 2) :: acc.1, acc.2)
  else
    match splitKVChars l with
    | none => none
    | some (k, w) =>
      if w = [] then some ([], (⟨k⟩, YVal.l acc.1) :: acc.2)
      else if acc.1 = [] then
        if w = ['[', ']'] then some ([], (⟨k⟩, YVal.l []) :: acc.2)
        else some ([], (⟨k⟩, YVal.s (loadScalar w)) :: acc.2)
      else none

/-- One right-to-left pass over the header lines, threading the pending
items and the entries parsed so far. -/
def loadLinesRev : List (List Char) → Option (List String × List (String × YVal))
  | [] => some ([], [])
  | l :: rest => (loadLinesRev rest).bind (loadLine l)

/-- `yaml.safe_load` on the Writer's header subset. -/
def yamlLoad (header : List Char) : Option (List (String × YVal)) :=
  match loadLinesRev (splitLines header) with
  | some ([], entries) => some entries
  | _ => none

/-- The dict returned by `_parse_skill_file`, with header values kept as
`YVal` (the Writer only ever emits strings and string lists). -/
structure ParsedSkill where
  name : YVal
  description : YVal
  version : YVal
  author : YVal
  category : YVal
  tags : YVal
  metadata : List (String × YVal)
  body : String
  file_path : String
deriving DecidableEq, Repr

/-- `frontmatter.get(k, d)`. -/
def getY (m : List (String × YVal)) (k : String) (d : YVal) : YVal :=
  (alookup m k).getD d

/-- Python truthiness of a header value. -/
def truthy : YVal → Bool
  | YVal.s v => v ≠ ""
  | YVal.l l => l ≠ []

/-- `_parse_skill_file` on the text of a file at `fp`: split off the
frontmatter, decode it, reject a missing or falsy `name`, populate the
defaulted fields and strip the body. -/
def parse_skill_file (fp : String) (content : String) : Option ParsedSkill :=
  (splitFrontmatter content.data).bind fun fr =>
    (yamlLoad fr.1).bind fun m =>
      if truthy (getY m "name" (YVal.s "")) = false then none
      else
        some
          { name := getY m "name" (YVal.s "")
            description := getY m "description" (YVal.s "")
            version := getY m "version" (YVal.s "1.0.0")
            author := getY m "author" (YVal.s "Unknown")
            category := getY m "category" (YVal.s "uncategorized")
            tags := getY m "tags" (YVal.l [])
            metadata := m
            body := ⟨pyStrip fr.2⟩
            file_path := fp }

/-- A scalar the model (and `yaml.dump`) writes verbatim on one line:
no newline, and not one of the two bracket/quote forms the loader
special-cases. -/
def plainScalar (v : String) : Prop :=
  '\n' ∉ v.data ∧ v ≠ ⟨[squote, squote]⟩ ∧ v ≠ "[]"

instance (v : String) : Decidable (plainScalar v) := by
  unfold plainScalar; infer_instance

/-! ### Spec-side formulations

These definitions follow the wording of the specification and of the
claims (not the source), and are compared with the source embedding in
the refinement theorems below. -/

/-- A nonempty all-digit character sequence read as a decimal `Nat`. -/
def digitsOnly (l : List Char) : Option Nat :=
  if l ≠ [] ∧ l.all Char.isDigit then
    some (l.foldl (fun a c => a * 10 + (c.toNat - 48)) 0)
  else none

/-- The claim's notion of a version: exactly three dot-separated
non-negative integers, as a `(major, minor, patch)` triple. -/
def parseStrict (v : String) : Option (Nat × Nat × Nat) :=
  match pySplitOn '.' v with
  | [a, b, c] =>
    match digitsOnly a.data, digitsOnly b.data, digitsOnly c.data with
    | some x, some y, some z => some (x, y, z)
    | _, _, _ => none
  | _ => none

/-- An integer literal: an optional sign before a nonempty digit string. -/
def isIntString (s : String) : Bool :=
  match s.data with
  | '-' :: ds => ds ≠ [] && ds.all Char.isDigit
  | '+' :: ds => ds ≠ [] && ds.all Char.isDigit
  | ds => ds ≠ [] && ds.all Char.isDigit

/-- The claim's notion of "parses as three dot-separated integers". -/
def isThreeIntVersion (v : String) : Bool :=
  match pySplitOn '.' v with
  | [a, b, c] => isIntString a && isIntString b && isIntString c
  | _ => false

/-- Strict lexicographic order on version triples. -/
def tripleLt : Nat × Nat × Nat → Nat × Nat × Nat → Bool
  | (a1, b1, c1), (a2, b2, c2) =>
    decide (a1 < a2) ||
      (decide (a1 = a2) && (decide (b1 < b2) || (decide (b1 = b2) && decide (c1 < c2))))

/-- Format a version triple. -/
def fmtVer (a b c : Nat) : String :=
  toString a ++ "." ++ toString b ++ "." ++ toString c

/-- The claim's version rule: parse every source version as a triple, take
the lexicographically-maximal triple, and bump the patch component. -/
def specTupleVersion (versions : List String) : Option String :=
  match versions.mapM parseStrict with
  | none => none
  | some [] => none
  | some (x :: xs) =>
    let m := xs.foldl (fun acc y => if tripleLt acc y then y else acc) x
    some (fmtVer m.1 m.2.1 (m.2.2 + 1))

/-- The spec's description merge: trim, drop empties, deduplicate keeping
first occurrences, join with a single space. -/
def specMergeDescriptions (descs : List String) : String :=
  String.intercalate " " (dedupSeen [] ((descs.map pyStripStr).filter (fun d => d ≠ "")))

/-- The eight keys the spec requires of every run summary (source names;
the spec spells them in camel case: `skillsDiscovered` for
`skills_discovered` and so on). -/
def summaryKeys : List String :=
  ["status", "skills_discovered", "clusters_created", "skills_consolidated",
   "skills_published", "skills_archived", "published_files", "archived_files"]

/-- Sum of the sizes of the clusters of size ≥ 2. -/
def multiClusterSum (clusters : List (String × List SkillRecord)) : Nat :=
  ((clusters.filter fun p => 2 ≤ p.2.length).map fun p => p.2.length).sum

/-! ### The claims as stated (for the refuted ones) -/

/-- Claim C1 as stated: whenever every source version of a cluster of size
≥ 2 parses as three dot-separated non-negative integers, the consolidated
version is the lexicographically-maximal integer triple with the patch
bumped. -/
def C1Claim : Prop :=
  ∀ (now : String) (skills : List SkillRecord), 2 ≤ skills.length →
    (∀ s ∈ skills, (parseStrict s.version).isSome = true) →
    (consolidate_cluster now skills).map (fun m => m.version)
      = specTupleVersion (skills.map fun s => s.version)

/-- Claim C2 as stated: a version that fails to parse as three
dot-separated integers anywhere in a cluster of size ≥ 2 forces the
fallback version `"1.0.1"`. -/
def C2Claim : Prop :=
  ∀ (now : String) (skills : List SkillRecord), 2 ≤ skills.length →
    (∃ s ∈ skills, isThreeIntVersion s.version = false) →
    (consolidate_cluster now skills).map (fun m => m.version) = some "1.0.1"

/-- Claim C3 as stated: on every completed (non-empty) full run the counts
obey `skillsConsolidated ≤ clustersCreated ≤ skillsDiscovered` and
`skillsArchived` equals the total record count of the consolidated
clusters. -/
def C3Claim : Prop :=
  ∀ (sim : Nat → Nat → ℚ) (t : ℚ) (fileExists : String → Bool)
    (archive_dir skills_dir now : String) (skills : List SkillRecord),
    skills ≠ [] →
    let summ := run_full_orchestration sim t fileExists archive_dir skills_dir now skills
    ∃ kc cc sd sa : Nat,
      alookup summ "skills_consolidated" = some (SVal.n kc) ∧
      alookup summ "clusters_created" = some (SVal.n cc) ∧
      alookup summ "skills_discovered" = some (SVal.n sd) ∧
      alookup summ "skills_archived" = some (SVal.n sa) ∧
      kc ≤ cc ∧ cc ≤ sd ∧ sa = multiClusterSum (cluster_skills skills sim t)

/-- Claim C6 as stated: clusters of size ≤ 1 are never consolidated, and a
record of a size-1 cluster is never selected for archival in a full run
(its file never contributes to `archivedFiles`). -/
def C6Claim : Prop :=
  (∀ (now : String) (cskills : List SkillRecord), cskills.length ≤ 1 →
    consolidate_cluster now cskills = none) ∧
  (∀ (sim : Nat → Nat → ℚ) (t : ℚ) (fileExists : String → Bool) (now : String)
     (skills : List SkillRecord) (p : String × List SkillRecord) (r : SkillRecord),
     p ∈ cluster_skills skills sim t → p.2.length = 1 → r ∈ p.2 →
     r ∉ archiveSelection fileExists skills
       (consolidationPhase now (cluster_skills skills sim t)).2)

/-- Claim C8 as stated: every run summary carries all eight keys with a
status among `success`, `no_skills_found`, `error`, and an empty discovery
yields the `no_skills_found` status. -/
def C8Claim : Prop :=
  ∀ (sim : Nat → Nat → ℚ) (t : ℚ) (fileExists : String → Bool)
    (archive_dir skills_dir now : String) (skills : List SkillRecord),
    let summ := run_full_orchestration sim t fileExists archive_dir skills_dir now skills
    (∀ k ∈ summaryKeys, (alookup summ k).isSome = true) ∧
    (∃ st, alookup summ "status" = some (SVal.s st) ∧
      (st = "success" ∨ st = "no_skills_found" ∨ st = "error")) ∧
    (skills = [] → alookup summ "status" = some (SVal.s "no_skills_found"))

/-! ### Concrete inputs for counterexamples and witnesses -/

/-- A record with the given name, description, version and path. -/
def mkRec (name desc ver path : String) : SkillRecord :=
  ⟨name, desc, ver, "Author", "general", [], "body text", path⟩

/-- Similarity matrix making records 0 and 1 similar and record 2 isolated. -/
def simPair : Nat → Nat → ℚ := fun i j => if i = 0 ∧ j = 1 then 1 else 0

/-! ## Structure of the greedy clustering -/

lemma mem_seedsBelow {sim : Nat → Nat → ℚ} {t : ℚ} :
    ∀ {n i : Nat}, i ∈ seedsBelow sim t n ↔ i < n ∧ isSeed sim t i = true := by
  intro n
  induction n with
  | zero => intro i; simp [seedsBelow]
  | succ m ih =>
    intro i
    simp only [seedsBelow, List.mem_append]
    constructor
    · rintro (h | h)
      · rcases ih.mp h with ⟨h1, h2⟩
        exact ⟨Nat.lt_succ_of_lt h1, h2⟩
      · split at h
        case isTrue hc =>
          simp only [List.mem_singleton] at h
          subst h
          exact ⟨Nat.lt_succ_self _, hc⟩
        case isFalse hc => simp at h
    · rintro ⟨h1, h2⟩
      rcases Nat.lt_succ_iff_lt_or_eq.mp h1 with h | rfl
      · exact Or.inl (ih.mpr ⟨h, h2⟩)
      · right
        have h2' : ((seedsBelow sim t i).all fun k => decide (sim k i < t)) = true := h2
        rw [if_pos h2']
        exact List.mem_singleton.mpr rfl

lemma seedsBelow_sorted (sim : Nat → Nat → ℚ) (t : ℚ) (n : Nat) :
    List.Pairwise (· < ·) (seedsBelow sim t n) := by
  induction n with
  | zero => simp [seedsBelow]
  | succ m ih =>
    unfold seedsBelow
    refine List.pairwise_append.mpr ⟨ih, ?_, ?_⟩
    · split <;> simp
    · intro a ha b hb
      have ham := (mem_seedsBelow.mp ha).1
      split at hb
      · simp only [List.mem_singleton] at hb
        omega
      · simp at hb

lemma isSeed_iff_no_candidate {sim : Nat → Nat → ℚ} {t : ℚ} {j : Nat} :
    isSeed sim t j = true ↔
      (seedsBelow sim t j).filter (fun i => decide (t ≤ sim i j)) = [] := by
  rw [isSeed, List.all_eq_true, List.filter_eq_nil_iff]
  constructor <;> intro h i hi
  · have := h i hi
    simp only [decide_eq_true_eq] at this ⊢
    exact not_le.mpr this
  · have := h i hi
    simp only [decide_eq_true_eq] at this ⊢
    exact not_le.mp this

lemma seedOf_of_seed {sim : Nat → Nat → ℚ} {t : ℚ} {j : Nat}
    (h : isSeed sim t j = true) : seedOf sim t j = j := by
  unfold seedOf
  rw [isSeed_iff_no_candidate.mp h]

lemma sorted_head_le {i k : Nat} {rest l : List Nat} (hs : List.Pairwise (· < ·) l)
    (hl : l = i :: rest) (hk : k ∈ l) : i ≤ k := by
  subst hl
  rcases List.mem_cons.mp hk with rfl | hk
  · exact le_refl _
  · exact le_of_lt (List.rel_of_pairwise_cons hs hk)

lemma seedOf_spec {sim : Nat → Nat → ℚ} {t : ℚ} {j : Nat}
    (h : isSeed sim t j = false) :
    seedOf sim t j < j ∧ isSeed sim t (seedOf sim t j) = true ∧
      t ≤ sim (seedOf sim t j) j := by
  unfold seedOf
  rcases hf : (seedsBelow sim t j).filter (fun i => decide (t ≤ sim i j)) with _ | ⟨i, rest⟩
  · exfalso
    have := isSeed_iff_no_candidate.mpr hf
    rw [h] at this
    exact Bool.false_ne_true this
  · have hi : i ∈ (seedsBelow sim t j).filter (fun i => decide (t ≤ sim i j)) := by
      rw [hf]; exact List.mem_cons_self _ _
    rcases List.mem_filter.mp hi with ⟨him, hsim⟩
    rcases mem_seedsBelow.mp him with ⟨hlt, hseed⟩
    exact ⟨hlt, hseed, by simpa using hsim⟩

lemma seedOf_le_of_candidate {sim : Nat → Nat → ℚ} {t : ℚ} {j k : Nat}
    (hk : k < j) (hks : isSeed sim t k = true) (hsim : t ≤ sim k j) :
    seedOf sim t j ≤ k := by
  have hkf : k ∈ (seedsBelow sim t j).filter (fun i => decide (t ≤ sim i j)) :=
    List.mem_filter.mpr ⟨mem_seedsBelow.mpr ⟨hk, hks⟩, by simpa⟩
  have hsorted : List.Pairwise (· < ·)
      ((seedsBelow sim t j).filter (fun i => decide (t ≤ sim i j))) :=
    List.Pairwise.filter _ (seedsBelow_sorted sim t j)
  unfold seedOf
  rcases hf : (seedsBelow sim t j).filter (fun i => decide (t ≤ sim i j)) with _ | ⟨i, rest⟩
  · rw [hf] at hkf; simp at hkf
  · rw [hf] at hkf hsorted
    exact sorted_head_le hsorted rfl hkf

lemma isSeed_false_of_candidate {sim : Nat → Nat → ℚ} {t : ℚ} {j k : Nat}
    (hk : k < j) (hks : isSeed sim t k = true) (hsim : t ≤ sim k j) :
    isSeed sim t j = false := by
  rw [Bool.eq_false_iff]
  intro hjt
  have hkf : k ∈ (seedsBelow sim t j).filter (fun i => decide (t ≤ sim i j)) :=
    List.mem_filter.mpr ⟨mem_seedsBelow.mpr ⟨hk, hks⟩, by simpa⟩
  rw [isSeed_iff_no_candidate.mp hjt] at hkf
  simp at hkf

lemma seedOf_eq_iff {sim : Nat → Nat → ℚ} {t : ℚ} {i j : Nat}
    (hj : isSeed sim t j = false) :
    seedOf sim t j = i ↔
      (i < j ∧ isSeed sim t i = true ∧ t ≤ sim i j ∧
        ∀ k, k < i → isSeed sim t k = true → sim k j < t) := by
  constructor
  · rintro rfl
    rcases seedOf_spec hj with ⟨h1, h2, h3⟩
    refine ⟨h1, h2, h3, ?_⟩
    intro k hk hks
    by_contra hc
    push_neg at hc
    have := seedOf_le_of_candidate (lt_trans hk h1) hks hc
    omega
  · rintro ⟨h1, h2, h3, h4⟩
    have hle : seedOf sim t j ≤ i := seedOf_le_of_candidate h1 h2 h3
    rcases seedOf_spec hj with ⟨g1, g2, g3⟩
    rcases Nat.lt_or_ge (seedOf sim t j) i with hlt | hge
    · exact absurd g3 (not_le.mpr (h4 _ hlt g2))
    · omega

lemma mem_followers {sim : Nat → Nat → ℚ} {t : ℚ} {n i j : Nat} :
    j ∈ followers sim t n i ↔
      j < n ∧ isSeed sim t j = false ∧ seedOf sim t j = i := by
  unfold followers
  rw [List.mem_filter, List.mem_range]
  simp [Bool.and_eq_true, Bool.not_eq_true', and_assoc]

lemma memsOf_eq_followers {sim : Nat → Nat → ℚ} {t : ℚ} {n m : Nat}
    {assigned : List Nat} (hmn : m < n) (hseedm : isSeed sim t m = true)
    (hA : ∀ k : Nat, k ∈ assigned ↔
      (k < n ∧ (k < m ∨ (isSeed sim t k = false ∧ seedOf sim t k < m)))) :
    memsOf sim t n assigned m = followers sim t n m := by
  unfold memsOf followers
  have hsplit : List.range n = List.range' 0 (m + 1) ++ List.range' (m + 1) (n - (m + 1)) := by
    rw [List.range_eq_range']
    have h := List.range'_append 0 (m + 1) (n - (m + 1)) 1
    simp only [Nat.zero_add, Nat.one_mul] at h
    have hn : n - (m + 1) + (m + 1) = n := by omega
    rw [hn] at h
    exact h.symm
  rw [hsplit, List.filter_append]
  have hfirst : (List.range' 0 (m + 1)).filter
      (fun j => !(isSeed sim t j) && decide (seedOf sim t j = m)) = [] := by
    rw [List.filter_eq_nil_iff]
    intro j hj hp
    rcases List.mem_range'_1.mp hj with ⟨_, hj2⟩
    simp only [Bool.and_eq_true, Bool.not_eq_true', decide_eq_true_eq] at hp
    rcases hp with ⟨hjs, hEq⟩
    have := (seedOf_spec hjs).1
    omega
  rw [hfirst, List.nil_append]
  refine List.filter_congr ?_
  intro j hj
  rcases List.mem_range'_1.mp hj with ⟨hj1, hj2⟩
  have hjn : j < n := by omega
  have hiff : (j ∉ assigned ∧ t ≤ sim m j) ↔
      (isSeed sim t j = false ∧ seedOf sim t j = m) := by
    constructor
    · rintro ⟨hna, hsim⟩
      have hjs : isSeed sim t j = false :=
        isSeed_false_of_candidate (by omega) hseedm hsim
      refine ⟨hjs, ?_⟩
      rw [seedOf_eq_iff hjs]
      refine ⟨by omega, hseedm, hsim, ?_⟩
      intro k hk hks
      by_contra hc
      push_neg at hc
      have hle : seedOf sim t j ≤ k := seedOf_le_of_candidate (by omega) hks hc
      exact hna ((hA j).mpr ⟨hjn, Or.inr ⟨hjs, by omega⟩⟩)
    · rintro ⟨hjs, hEq⟩
      refine ⟨?_, ?_⟩
      · intro hja
        rcases ((hA j).mp hja).2 with h | h
        · omega
        · rcases h with ⟨_, hlt⟩
          omega
      · have := (seedOf_spec hjs).2.2
        rw [hEq] at this
        exact this
  rw [Bool.eq_iff_iff]
  simp only [Bool.and_eq_true, decide_eq_true_eq, Bool.not_eq_true']
  exact hiff

lemma clusterGoAux_eq (sim : Nat → Nat → ℚ) (t : ℚ) (n : Nat) :
    ∀ (cnt m : Nat), m + cnt = n → ∀ (assigned : List Nat),
      (∀ k : Nat, k ∈ assigned ↔
        (k < n ∧ (k < m ∨ (isSeed sim t k = false ∧ seedOf sim t k < m)))) →
      clusterGoAux sim t n (List.range' m cnt) assigned
        = ((List.range' m cnt).filter fun i => isSeed sim t i).map
            (fun i => i :: followers sim t n i) := by
  intro cnt
  induction cnt with
  | zero =>
    intro m hm assigned hA
    simp [clusterGoAux, List.range']
  | succ c ih =>
    intro m hm assigned hA
    have hmn : m < n := by omega
    rw [List.range'_succ]
    by_cases hmem : m ∈ assigned
    · have hseedm : isSeed sim t m = false := by
        rcases ((hA m).mp hmem).2 with h | h
        · omega
        · exact h.1
      have hstep : clusterGoAux sim t n (m :: List.range' (m + 1) c 1) assigned
          = clusterGoAux sim t n (List.range' (m + 1) c 1) assigned := by
        simp only [clusterGoAux]
        rw [if_pos hmem]
      have hA' : ∀ k : Nat, k ∈ assigned ↔
          (k < n ∧ (k < m + 1 ∨ (isSeed sim t k = false ∧ seedOf sim t k < m + 1))) := by
        intro k
        rw [hA k]
        constructor
        · rintro ⟨h1, h2 | h2⟩
          · exact ⟨h1, Or.inl (by omega)⟩
          · exact ⟨h1, Or.inr ⟨h2.1, by omega⟩⟩
        · rintro ⟨h1, h2 | h2⟩
          · rcases Nat.lt_succ_iff_lt_or_eq.mp h2 with h | rfl
            · exact ⟨h1, Or.inl h⟩
            · exact ⟨h1, Or.inr ⟨hseedm, (seedOf_spec hseedm).1⟩⟩
          · rcases h2 with ⟨h2a, h2b⟩
            rcases Nat.lt_succ_iff_lt_or_eq.mp h2b with h | hEq
            · exact ⟨h1, Or.inr ⟨h2a, h⟩⟩
            · exfalso
              have hst := (seedOf_spec h2a).2.1
              rw [hEq, hseedm] at hst
              exact Bool.false_ne_true hst
      rw [hstep, ih (m + 1) (by omega) assigned hA']
      rw [List.filter_cons, if_neg (by simp [hseedm])]
    · have hseedm : isSeed sim t m = true := by
        by_contra hff
        have hf : isSeed sim t m = false := Bool.eq_false_iff.mpr hff
        exact hmem ((hA m).mpr ⟨hmn, Or.inr ⟨hf, (seedOf_spec hf).1⟩⟩)
      have hmems := memsOf_eq_followers hmn hseedm hA
      have hstep : clusterGoAux sim t n (m :: List.range' (m + 1) c 1) assigned
          = (m :: memsOf sim t n assigned m) ::
            clusterGoAux sim t n (List.range' (m + 1) c 1)
              (assigned ++ m :: memsOf sim t n assigned m) := by
        simp only [clusterGoAux]
        rw [if_neg hmem]
      have hA' : ∀ k : Nat, k ∈ assigned ++ m :: memsOf sim t n assigned m ↔
          (k < n ∧ (k < m + 1 ∨ (isSeed sim t k = false ∧ seedOf sim t k < m + 1))) := by
        intro k
        rw [hmems]
        simp only [List.mem_append, List.mem_cons]
        constructor
        · rintro (h | h | h)
          · rcases (hA k).mp h with ⟨h1, h2 | h2⟩
            · exact ⟨h1, Or.inl (by omega)⟩
            · exact ⟨h1, Or.inr ⟨h2.1, by omega⟩⟩
          · subst h
            exact ⟨hmn, Or.inl (by omega)⟩
          · rcases mem_followers.mp h with ⟨h1, h2, h3⟩
            exact ⟨h1, Or.inr ⟨h2, by omega⟩⟩
        · rintro ⟨h1, h2 | h2⟩
          · rcases Nat.lt_succ_iff_lt_or_eq.mp h2 with h | rfl
            · exact Or.inl ((hA k).mpr ⟨h1, Or.inl h⟩)
            · exact Or.inr (Or.inl rfl)
          · rcases h2 with ⟨h2a, h2b⟩
            rcases Nat.lt_succ_iff_lt_or_eq.mp h2b with h | hEq
            · exact Or.inl ((hA k).mpr ⟨h1, Or.inr ⟨h2a, h⟩⟩)
            · exact Or.inr (Or.inr (mem_followers.mpr ⟨h1, h2a, hEq⟩))
      rw [hmems] at hstep hA'
      rw [hstep, ih (m + 1) (by omega) _ hA']
      rw [List.filter_cons, if_pos hseedm]
      simp

theorem clusterIdx_eq (sim : Nat → Nat → ℚ) (t : ℚ) (n : Nat) :
    clusterIdx sim t n
      = ((List.range n).filter fun i => isSeed sim t i).map
          (fun i => i :: followers sim t n i) := by
  unfold clusterIdx
  rw [List.range_eq_range']
  exact clusterGoAux_eq sim t n n 0 (by omega) [] (by intro k; simp)

lemma clusterIdx_shape {sim : Nat → Nat → ℚ} {t : ℚ} {n : Nat} {c : List Nat}
    (hc : c ∈ clusterIdx sim t n) :
    ∃ i, i < n ∧ isSeed sim t i = true ∧ c = i :: followers sim t n i := by
  rw [clusterIdx_eq] at hc
  rcases List.mem_map.mp hc with ⟨i, hi, rfl⟩
  rcases List.mem_filter.mp hi with ⟨hir, his⟩
  exact ⟨i, List.mem_range.mp hir, his, rfl⟩

lemma clusterIdx_flatten_nodup (sim : Nat → Nat → ℚ) (t : ℚ) (n : Nat) :
    (clusterIdx sim t n).flatten.Nodup := by
  rw [clusterIdx_eq, List.nodup_flatten]
  constructor
  · intro l hl
    rcases List.mem_map.mp hl with ⟨i, hi, rfl⟩
    rcases List.mem_filter.mp hi with ⟨_, his⟩
    refine List.nodup_cons.mpr ⟨?_, List.Nodup.filter _ (List.nodup_range n)⟩
    intro hmem
    rcases mem_followers.mp hmem with ⟨_, hif, _⟩
    rw [his] at hif
    simp at hif
  · rw [List.pairwise_map]
    have hnd : ((List.range n).filter fun i => isSeed sim t i).Nodup :=
      List.Nodup.filter _ (List.nodup_range n)
    refine List.Pairwise.imp_of_mem ?_ hnd
    intro a b ha hb hne x hxa hxb
    have hsa : isSeed sim t a = true := (List.mem_filter.mp ha).2
    have hsb : isSeed sim t b = true := (List.mem_filter.mp hb).2
    rcases List.mem_cons.mp hxa with rfl | hxa <;> rcases List.mem_cons.mp hxb with h | hxb
    · exact hne h
    · rcases mem_followers.mp hxb with ⟨_, hxf, _⟩
      rw [hsa] at hxf
      simp at hxf
    · subst h
      rcases mem_followers.mp hxa with ⟨_, hxf, _⟩
      rw [hsb] at hxf
      simp at hxf
    · rcases mem_followers.mp hxa with ⟨_, _, h1⟩
      rcases mem_followers.mp hxb with ⟨_, _, h2⟩
      exact hne (h1 ▸ h2 ▸ rfl)

lemma clusterIdx_flatten_mem {sim : Nat → Nat → ℚ} {t : ℚ} {n x : Nat} :
    x ∈ (clusterIdx sim t n).flatten ↔ x < n := by
  rw [clusterIdx_eq, List.mem_flatten]
  constructor
  · rintro ⟨l, hl, hx⟩
    rcases List.mem_map.mp hl with ⟨i, hi, rfl⟩
    rcases List.mem_cons.mp hx with rfl | hx
    · exact List.mem_range.mp (List.mem_filter.mp hi).1
    · exact (mem_followers.mp hx).1
  · intro hx
    by_cases hs : isSeed sim t x = true
    · refine ⟨x :: followers sim t n x, ?_, List.mem_cons_self _ _⟩
      exact List.mem_map.mpr ⟨x, List.mem_filter.mpr ⟨List.mem_range.mpr hx, hs⟩, rfl⟩
    · have hf : isSeed sim t x = false := Bool.eq_false_iff.mpr hs
      rcases seedOf_spec hf with ⟨h1, h2, _⟩
      refine ⟨seedOf sim t x :: followers sim t n (seedOf sim t x), ?_, ?_⟩
      · exact List.mem_map.mpr
          ⟨_, List.mem_filter.mpr ⟨List.mem_range.mpr (by omega), h2⟩, rfl⟩
      · exact List.mem_cons.mpr (Or.inr (mem_followers.mpr ⟨hx, hf, rfl⟩))

lemma clusterIdx_flatten_perm (sim : Nat → Nat → ℚ) (t : ℚ) (n : Nat) :
    (clusterIdx sim t n).flatten.Perm (List.range n) := by
  rw [List.perm_ext_iff_of_nodup (clusterIdx_flatten_nodup sim t n) (List.nodup_range n)]
  intro a
  rw [clusterIdx_flatten_mem, List.mem_range]

lemma clusterIdx_length_le (sim : Nat → Nat → ℚ) (t : ℚ) (n : Nat) :
    (clusterIdx sim t n).length ≤ n := by
  rw [clusterIdx_eq, List.length_map]
  calc ((List.range n).filter fun i => isSeed sim t i).length
      ≤ (List.range n).length := List.length_filter_le _ _
    _ = n := List.length_range n

lemma map_getD_range {α : Type} (l : List α) (d : α) :
    (List.range l.length).map (fun j => l.getD j d) = l := by
  induction l with
  | nil => simp
  | cons a tl ih =>
    rw [List.length_cons, List.range_succ_eq_map, List.map_cons, List.map_map]
    have htail : (List.range tl.length).map ((fun j => (a :: tl).getD j d) ∘ Nat.succ)
        = (List.range tl.length).map (fun j => tl.getD j d) := by
      refine List.map_congr_left ?_
      intro j _
      simp
    rw [htail, ih]
    simp

lemma attachClusterIds_snd {α : Type} :
    ∀ (L : List (List α)) (k : Nat), (attachClusterIds k L).map Prod.snd = L := by
  intro L
  induction L with
  | nil => intro k; rfl
  | cons c rest ih =>
    intro k
    simp only [attachClusterIds, List.map_cons]
    rw [ih (k + 1)]

lemma attachClusterIds_length {α : Type} :
    ∀ (L : List (List α)) (k : Nat), (attachClusterIds k L).length = L.length := by
  intro L
  induction L with
  | nil => intro k; rfl
  | cons c rest ih =>
    intro k
    simp only [attachClusterIds, List.length_cons]
    rw [ih (k + 1)]

lemma attachClusterIds_fst {α : Type} :
    ∀ (L : List (List α)) (k : Nat),
      (attachClusterIds k L).map Prod.fst
        = (List.range L.length).map (fun i => "cluster_" ++ toString (k + i)) := by
  intro L
  induction L with
  | nil => intro k; rfl
  | cons c rest ih =>
    intro k
    rw [attachClusterIds, List.map_cons, List.length_cons, List.range_succ_eq_map,
      List.map_cons, List.map_map, ih (k + 1)]
    congr 1
    refine List.map_congr_left ?_
    intro i _
    simp only [Function.comp_apply]
    have h : k + 1 + i = k + (i + 1) := by omega
    rw [h]

lemma attachClusterIds_mem {α : Type} {p : String × List α} :
    ∀ {L : List (List α)} {k : Nat}, p ∈ attachClusterIds k L → p.2 ∈ L := by
  intro L
  induction L with
  | nil => intro k h; simp [attachClusterIds] at h
  | cons c rest ih =>
    intro k h
    rcases List.mem_cons.mp h with rfl | h
    · exact List.mem_cons_self _ _
    · exact List.mem_cons.mpr (Or.inr (ih h))

lemma cluster_skills_flatten_perm (skills : List SkillRecord) (sim : Nat → Nat → ℚ)
    (t : ℚ) : ((cluster_skills skills sim t).map Prod.snd).flatten.Perm skills := by
  by_cases h : skills = []
  · subst h; simp [cluster_skills]
  · unfold cluster_skills
    rw [if_neg h, attachClusterIds_snd, ← List.map_flatten]
    have hp := (clusterIdx_flatten_perm sim t skills.length).map
      (fun j => skills.getD j noRecord)
    rw [map_getD_range] at hp
    exact hp

/-- C5: clustering iterates records in input order; an unassigned later
record `j` joins the cluster seeded by record `i` exactly when the
seed-to-`j` similarity reaches the threshold and no earlier seed already
took `j` — membership is decided only against the cluster's seed (the
right-hand side consults `sim` only at seed rows), never against other
already-added members. -/
theorem C5_cluster_membership (sim : Nat → Nat → ℚ) (t : ℚ) (n i j : Nat)
    (hi : i < n) (hseed : isSeed sim t i = true) :
    (∃ c ∈ clusterIdx sim t n, c.head? = some i ∧ j ∈ c.tail) ↔
      (i < j ∧ j < n ∧ t ≤ sim i j ∧
        ∀ k, k < i → isSeed sim t k = true → sim k j < t) := by
  constructor
  · rintro ⟨c, hc, hhead, htail⟩
    rcases clusterIdx_shape hc with ⟨s, hsn, hss, rfl⟩
    rw [List.head?_cons, Option.some.injEq] at hhead
    subst hhead
    rw [List.tail_cons] at htail
    rcases mem_followers.mp htail with ⟨hjn, hjs, hjso⟩
    rcases (seedOf_eq_iff hjs).mp hjso with ⟨h1, _, h3, h4⟩
    exact ⟨h1, hjn, h3, h4⟩
  · rintro ⟨h1, h2, h3, h4⟩
    have hjs : isSeed sim t j = false := isSeed_false_of_candidate h1 hseed h3
    have hso : seedOf sim t j = i := (seedOf_eq_iff hjs).mpr ⟨h1, hseed, h3, h4⟩
    refine ⟨i :: followers sim t n i, ?_, List.head?_cons, ?_⟩
    · rw [clusterIdx_eq]
      exact List.mem_map.mpr ⟨i, List.mem_filter.mpr ⟨List.mem_range.mpr hi, hseed⟩, rfl⟩
    · rw [List.tail_cons]
      exact mem_followers.mpr ⟨h2, hjs, hso⟩

/-- Witness for C5 at a concrete matrix: with three records where only
`sim 0 1 = 1`, record 1 joins the cluster seeded by record 0. -/
theorem C5_cluster_membership_witness :
    ∃ c ∈ clusterIdx simPair 1 3, c.head? = some 0 ∧ 1 ∈ c.tail :=
  (C5_cluster_membership simPair 1 3 0 1 (by decide) (by decide)).mpr (by decide)

/-- C7: clustering partitions its input — the empty input yields an empty
result, the clusters' members are a permutation of the input records (every
record in exactly one cluster), no cluster is empty, and the cluster ids
are the sequential strings `cluster_0, cluster_1, …` in discovery order. -/
theorem C7_cluster_partition :
    ∀ (skills : List SkillRecord) (sim : Nat → Nat → ℚ) (t : ℚ),
      cluster_skills [] sim t = [] ∧
      ((cluster_skills skills sim t).map Prod.snd).flatten.Perm skills ∧
      (∀ p ∈ cluster_skills skills sim t, p.2 ≠ []) ∧
      (cluster_skills skills sim t).map Prod.fst
        = (List.range (cluster_skills skills sim t).length).map
            (fun k => "cluster_" ++ toString k) := by
  intro skills sim t
  refine ⟨by simp [cluster_skills], cluster_skills_flatten_perm skills sim t, ?_, ?_⟩
  · intro p hp
    by_cases h : skills = []
    · subst h
      simp [cluster_skills] at hp
    · unfold cluster_skills at hp
      rw [if_neg h] at hp
      have h2 := attachClusterIds_mem hp
      rcases List.mem_map.mp h2 with ⟨c, hc, hcp⟩
      rcases clusterIdx_shape hc with ⟨i, _, _, rfl⟩
      rw [← hcp]
      simp
  · unfold cluster_skills
    split
    · rfl
    · rw [attachClusterIds_fst, attachClusterIds_length, List.length_map]
      refine List.map_congr_left ?_
      intro i _
      rw [Nat.zero_add]

/-- Witness for C7 at a concrete input: two similar records form one
cluster whose members are exactly the input, with id `cluster_0`. -/
theorem C7_cluster_partition_witness :
    cluster_skills ([] : List SkillRecord) simPair 1 = [] ∧
    ((cluster_skills [mkRec "A" "d" "1.0.0" "p", mkRec "B" "e" "1.0.0" "q"] simPair 1).map
        Prod.snd).flatten.Perm [mkRec "A" "d" "1.0.0" "p", mkRec "B" "e" "1.0.0" "q"] ∧
    ("cluster_0", [mkRec "A" "d" "1.0.0" "p", mkRec "B" "e" "1.0.0" "q"]).2 ≠ [] := by
  have h := C7_cluster_partition [mkRec "A" "d" "1.0.0" "p", mkRec "B" "e" "1.0.0" "q"]
    simPair 1
  exact ⟨h.1, h.2.1, h.2.2.1 _ (by decide)⟩

/-! ## Archival -/

lemma archive_eq_selection (fileExists : String → Bool) (archive_path : String) :
    ∀ (discovered : List SkillRecord) (skill_names : List String),
      archive_original_skills fileExists archive_path discovered skill_names
        = (archiveSelection fileExists discovered skill_names).map
            (fun s => archive_path ++ "/" ++ basename s.file_path) := by
  intro discovered
  induction discovered with
  | nil => intro names; rfl
  | cons s rest ih =>
    intro names
    unfold archive_original_skills archiveSelection
    rw [List.filter_cons]
    by_cases h : s.name ∈ names ∧ fileExists s.file_path = true
    · rw [if_pos h, if_pos (by simp [h.1, h.2]), List.map_cons]
      rw [ih names]
      rfl
    · rw [if_neg h, if_neg (by simpa [Bool.and_eq_true, -not_and] using h)]
      rw [ih names]
      rfl

/-- C10: archival selects by skill-name equality, not by path — the files
moved are exactly the discovered records whose name is listed and whose
source file still exists (a record with a missing file is silently
skipped), and every destination is the archive root joined with the source
file's basename alone, so two distinct sources sharing a basename map to
the same destination. -/
theorem C10_archive_by_name (fileExists : String → Bool) (archive_path : String)
    (discovered : List SkillRecord) (skill_names : List String) :
    (archive_original_skills fileExists archive_path discovered skill_names
      = (discovered.filter fun s =>
          decide (s.name ∈ skill_names) && fileExists s.file_path).map
          (fun s => archive_path ++ "/" ++ basename s.file_path)) ∧
    (∀ s1 s2 : SkillRecord, basename s1.file_path = basename s2.file_path →
      archive_path ++ "/" ++ basename s1.file_path
        = archive_path ++ "/" ++ basename s2.file_path) := by
  refine ⟨archive_eq_selection fileExists archive_path discovered skill_names, ?_⟩
  intro s1 s2 h
  rw [h]

/-- Witness for C10: two sources under different directories but with the
same basename get the same archive destination. -/
theorem C10_archive_by_name_witness :
    "archive" ++ "/" ++ basename (mkRec "A" "d" "1.0.0" "skills/a/f.md").file_path
      = "archive" ++ "/" ++ basename (mkRec "B" "d" "1.0.0" "skills/b/f.md").file_path :=
  (C10_archive_by_name (fun _ => true) "archive" [] []).2 _ _ (by decide)

/-! ## Description merge -/

lemma dedupLoopNE_eq (l : List String) :
    ∀ seen, dedupLoopNE seen l = dedupSeen seen (l.filter (fun d => d ≠ "")) := by
  induction l with
  | nil => intro seen; rfl
  | cons d rest ih =>
    intro seen
    rw [List.filter_cons]
    by_cases hd : d = ""
    · rw [if_neg (by simp [hd])]
      unfold dedupLoopNE
      rw [if_neg (by simp [hd])]
      exact ih seen
    · rw [if_pos (by simp [hd])]
      unfold dedupLoopNE dedupSeen
      by_cases hs : d ∈ seen
      · rw [if_neg (by simp [hs]), if_pos hs]
        exact ih seen
      · rw [if_pos ⟨hd, hs⟩, if_neg hs]
        rw [ih (d :: seen)]

lemma filter_desc_map (skills : List SkillRecord) :
    (skills.filter (fun s => s.description ≠ "")).map (fun s => pyStripStr s.description)
      = ((skills.map (fun s => s.description)).filter (fun d => d ≠ "")).map pyStripStr := by
  induction skills with
  | nil => rfl
  | cons s rest ih =>
    rw [List.map_cons, List.filter_cons, List.filter_cons]
    by_cases hd : s.description = ""
    · rw [if_neg (by simp [hd]), if_neg (by simp [hd])]
      exact ih
    · rw [if_pos (by simp [hd]), if_pos (by simp [hd]), List.map_cons, List.map_cons]
      rw [ih]

lemma filtered_trim_eq (l : List String) :
    ((l.filter (fun d => d ≠ "")).map pyStripStr).filter (fun d => d ≠ "")
      = (l.map pyStripStr).filter (fun d => d ≠ "") := by
  induction l with
  | nil => rfl
  | cons d rest ih =>
    rw [List.filter_cons, List.map_cons, List.filter_cons]
    by_cases hd : d = ""
    · subst hd
      rw [if_neg (by simp)]
      have hstrip : pyStripStr "" = "" := rfl
      rw [hstrip, if_neg (by simp)]
      exact ih
    · rw [if_pos (by simp [hd]), List.map_cons, List.filter_cons]
      by_cases hs : pyStripStr d = ""
      · rw [if_neg (by simp [hs]), if_neg (by simp [hs])]
        exact ih
      · rw [if_pos (by simp [hs]), if_pos (by simp [hs])]
        rw [ih]

lemma merge_desc_eq (skills : List SkillRecord) :
    _merge_descriptions skills
      = specMergeDescriptions (skills.map fun s => s.description) := by
  unfold _merge_descriptions specMergeDescriptions
  rw [dedupLoopNE_eq, filter_desc_map, filtered_trim_eq]

/-- C9: for every cluster of size ≥ 2, the merged description is the
trimmed non-empty source descriptions, deduplicated by exact string
equality keeping first occurrences, joined by a single space. -/
theorem C9_description_merge (now : String) (skills : List SkillRecord)
    (h : 2 ≤ skills.length) :
    (consolidate_cluster now skills).map (fun m => m.description)
      = some (specMergeDescriptions (skills.map fun s => s.description)) := by
  rcases skills with _ | ⟨s0, rest⟩
  · simp at h
  · unfold consolidate_cluster
    rw [if_neg (by simp only [List.length_cons] at h ⊢; omega)]
    simp only [Option.map_some]
    exact congrArg some (merge_desc_eq _)

/-- Witness for C9: the spec example — descriptions "Build things.",
"Build things.", "Ship fast." merge to "Build things. Ship fast.". -/
theorem C9_description_merge_witness :
    (consolidate_cluster "T"
      [mkRec "a" "Build things." "1.0.0" "p1", mkRec "b" "Build things." "1.0.0" "p2",
       mkRec "c" "Ship fast." "1.0.0" "p3"]).map (fun m => m.description)
      = some "Build things. Ship fast." := by
  rw [C9_description_merge "T" _ (by decide)]
  decide

/-! ## Version arithmetic -/

lemma foldl_max_mem (f : String → String → Bool) :
    ∀ (l : List String) (a : String),
      l.foldl (fun acc y => if f acc y then y else acc) a ∈ a :: l := by
  intro l
  induction l with
  | nil => intro a; exact List.mem_singleton.mpr rfl
  | cons y ys ih =>
    intro a
    rw [List.foldl_cons]
    rcases List.mem_cons.mp (ih (if f a y then y else a)) with h | h
    · rw [h]
      by_cases hf : f a y
      · rw [if_pos hf]
        exact List.mem_cons.mpr (Or.inr (List.mem_cons_self _ _))
      · rw [if_neg hf]
        exact List.mem_cons_self _ _
    · exact List.mem_cons.mpr (Or.inr (List.mem_cons.mpr (Or.inr h)))

lemma pyMax_mem (d x : String) (xs : List String) : pyMax d (x :: xs) ∈ x :: xs :=
  foldl_max_mem pyStrLt xs x

lemma dropWhile_not_space {l : List Char} (h : ∀ c ∈ l, Char.isDigit c = true) :
    l.dropWhile pyIsSpace = l := by
  cases l with
  | nil => rfl
  | cons c rest =>
    rw [List.dropWhile_cons]
    have hc := h c (List.mem_cons_self _ _)
    have : pyIsSpace c = false := by
      by_cases h1 : c = ' '
      · subst h1; simp at hc
      · by_cases h2 : c = '\t'
        · subst h2; simp at hc
        · by_cases h3 : c = '\n'
          · subst h3; simp at hc
          · by_cases h4 : c = '\r'
            · subst h4; simp at hc
            · by_cases h5 : c = '\x0b'
              · subst h5; simp at hc
              · by_cases h6 : c = '\x0c'
                · subst h6; simp at hc
                · simp [pyIsSpace, h1, h2, h3, h4, h5, h6]
    rw [this]
    simp

lemma pyStrip_digits {l : List Char} (h : ∀ c ∈ l, Char.isDigit c = true) :
    pyStrip l = l := by
  unfold pyStrip
  rw [dropWhile_not_space h]
  rw [dropWhile_not_space (by intro c hc; exact h c (List.mem_reverse.mp hc))]
  exact List.reverse_reverse l

lemma pyDigitsAux_digits :
    ∀ {l : List Char}, (∀ c ∈ l, Char.isDigit c = true) → ∀ (acc : Nat),
      pyDigitsAux acc l = some (l.foldl (fun a c => a * 10 + (c.toNat - 48)) acc) := by
  intro l
  induction l with
  | nil => intro _ acc; rfl
  | cons c rest ih =>
    intro h acc
    have hc := h c (List.mem_cons_self _ _)
    have hus : ¬(c = '_') := by
      intro hu; subst hu; simp at hc
    unfold pyDigitsAux
    rw [if_neg hus]
    unfold digitVal
    rw [if_pos hc]
    rw [List.foldl_cons]
    exact ih (fun d hd => h d (List.mem_cons.mpr (Or.inr hd))) _

lemma pyInt_of_digitsOnly {l : List Char} {v : Nat} (h : digitsOnly l = some v) :
    pyInt ⟨l⟩ = some (Int.ofNat v) := by
  unfold digitsOnly at h
  split at h
  case isFalse => simp at h
  case isTrue hcond =>
    rcases hcond with ⟨hne, hall⟩
    rw [Option.some.injEq] at h
    have hdig : ∀ c ∈ l, Char.isDigit c = true := fun c hc => List.all_eq_true.mp hall c hc
    unfold pyInt
    rw [show (String.mk l).data = l from rfl, pyStrip_digits hdig]
    cases l with
    | nil => exact absurd rfl hne
    | cons c rest =>
      have hc := hdig c (List.mem_cons_self _ _)
      simp only [pyIntChars]
      rw [if_neg (by intro hq; subst hq; simp at hc),
        if_neg (by intro hq; subst hq; simp at hc)]
      have hdv : digitVal c = some (c.toNat - 48) := by
        unfold digitVal
        rw [if_pos hc]
      simp only [pyNatOfChars, hdv]
      rw [pyDigitsAux_digits (fun d hd => hdig d (List.mem_cons.mpr (Or.inr hd)))]
      rw [← h, List.foldl_cons]
      norm_num

lemma pyInt_of_digitsOnly_str {p : String} {v : Nat} (h : digitsOnly p.data = some v) :
    pyInt p = some (Int.ofNat v) :=
  pyInt_of_digitsOnly h

lemma incrementVersion_of_strict {v : String} {a b c : Nat}
    (h : parseStrict v = some (a, b, c)) :
    _increment_version v = fmtVer a b (c + 1) := by
  unfold parseStrict at h
  rcases hsp : pySplitOn '.' v with _ | ⟨pa, _ | ⟨pb, _ | ⟨pc, _ | ⟨pd, rest⟩⟩⟩⟩ <;>
    rw [hsp] at h
  · simp at h
  · simp at h
  · simp at h
  · have h2 : (match digitsOnly pa.data, digitsOnly pb.data, digitsOnly pc.data with
        | some x, some y, some z => some (x, y, z)
        | _, _, _ => none) = some (a, b, c) := h
    clear h
    rcases hA : digitsOnly pa.data with _ | x <;> rw [hA] at h2
    · simp at h2
    rcases hB : digitsOnly pb.data with _ | y <;> rw [hB] at h2
    · simp at h2
    rcases hC : digitsOnly pc.data with _ | z <;> rw [hC] at h2
    · simp at h2
    simp only [Option.some.injEq, Prod.mk.injEq] at h2
    rcases h2 with ⟨rfl, rfl, rfl⟩
    unfold _increment_version parseVersionPy
    rw [hsp]
    simp only [List.getElem?_cons_zero, List.getElem?_cons_succ]
    rw [pyInt_of_digitsOnly_str hA, pyInt_of_digitsOnly_str hB, pyInt_of_digitsOnly_str hC]
    rfl
  · simp at h

lemma consolidate_cons_version (now : String) (s0 : SkillRecord)
    (rest : List SkillRecord) (h : 2 ≤ (s0 :: rest).length) :
    (consolidate_cluster now (s0 :: rest)).map (fun m => m.version)
      = some (_increment_version (pyMax "1.0.0" ((s0 :: rest).map fun s => s.version))) := by
  unfold consolidate_cluster
  rw [if_neg (by simp only [List.length_cons] at h ⊢; omega)]
  rfl

lemma consolidate_cons_isSome (now : String) (s0 : SkillRecord)
    (rest : List SkillRecord) (h : 2 ≤ (s0 :: rest).length) :
    (consolidate_cluster now (s0 :: rest)).isSome = true := by
  unfold consolidate_cluster
  rw [if_neg (by simp only [List.length_cons] at h ⊢; omega)]
  rfl

/-- C1 corrected: the consolidated version comes from the maximum of the
source version strings under character-wise (Python string) comparison —
not from the maximum integer triple — with its patch component bumped.
The two orders agree on the spec example `1.2.3` / `1.2.9` but diverge when
components differ in digit count. -/
theorem C1_version_string_max (now : String) (skills : List SkillRecord)
    (h2 : 2 ≤ skills.length)
    (hstrict : ∀ s ∈ skills, (parseStrict s.version).isSome = true) :
    ∃ a b c : Nat,
      parseStrict (pyMax "1.0.0" (skills.map fun s => s.version)) = some (a, b, c) ∧
      (consolidate_cluster now skills).map (fun m => m.version)
        = some (fmtVer a b (c + 1)) := by
  rcases skills with _ | ⟨s0, rest⟩
  · simp at h2
  · have hmem : pyMax "1.0.0" ((s0 :: rest).map fun s => s.version)
        ∈ (s0 :: rest).map fun s => s.version := by
      rw [List.map_cons]
      exact pyMax_mem "1.0.0" s0.version (rest.map fun s => s.version)
    rcases List.mem_map.mp hmem with ⟨s, hs, hEq⟩
    have hstr := hstrict s hs
    rcases Option.isSome_iff_exists.mp hstr with ⟨⟨a, b, c⟩, hp⟩
    have hpmax : parseStrict (pyMax "1.0.0" ((s0 :: rest).map fun s => s.version))
        = some (a, b, c) := by rw [← hEq]; exact hp
    refine ⟨a, b, c, hpmax, ?_⟩
    rw [consolidate_cons_version now s0 rest h2, incrementVersion_of_strict hpmax]

/-- C1 as stated is false: with source versions `1.9.0` and `1.10.0` the
lexicographically-maximal integer triple is `(1, 10, 0)` giving `1.10.1`,
but the code takes the maximal version *string* `1.9.0` and produces
`1.9.1`. -/
theorem C1_counterexample : ¬ C1Claim := by
  intro h
  have hc := h "T" [mkRec "A" "d" "1.9.0" "p1", mkRec "B" "d" "1.10.0" "p2"]
    (by decide) (by decide)
  revert hc
  decide

/-- Witness for C1 (amended): versions `1.2.3` and `1.2.9` give `1.2.10`. -/
theorem C1_version_string_max_witness :
    (consolidate_cluster "T"
      [mkRec "A" "d" "1.2.3" "p1", mkRec "B" "d" "1.2.9" "p2"]).map (fun m => m.version)
      = some "1.2.10" := by
  rcases C1_version_string_max "T"
      [mkRec "A" "d" "1.2.3" "p1", mkRec "B" "d" "1.2.9" "p2"] (by decide) (by decide)
    with ⟨a, b, c, h1, h2⟩
  have hx : parseStrict (pyMax "1.0.0"
      ([mkRec "A" "d" "1.2.3" "p1", mkRec "B" "d" "1.2.9" "p2"].map fun s => s.version))
      = some (1, 2, 9) := by decide
  rw [hx] at h1
  simp only [Option.some.injEq, Prod.mk.injEq] at h1
  rcases h1 with ⟨rfl, rfl, rfl⟩
  rw [h2]
  decide

/-- C2 corrected: the fallback version `1.0.1` is produced exactly when
the string-maximal source version fails the code's three-integer parse;
a malformed version elsewhere in the cluster does not trigger it.
Consolidation itself never aborts: it always returns a master record for
clusters of size ≥ 2. -/
theorem C2_version_fallback (now : String) (skills : List SkillRecord)
    (h2 : 2 ≤ skills.length) :
    (parseVersionPy (pyMax "1.0.0" (skills.map fun s => s.version)) = none →
      (consolidate_cluster now skills).map (fun m => m.version) = some "1.0.1") ∧
    (consolidate_cluster now skills).isSome = true := by
  rcases skills with _ | ⟨s0, rest⟩
  · simp at h2
  · constructor
    · intro hnone
      rw [consolidate_cons_version now s0 rest h2]
      unfold _increment_version
      rw [hnone]
    · exact consolidate_cons_isSome now s0 rest h2

/-- C2 as stated is false: in a cluster with versions `0.0` and `1.2.3`,
the version `0.0` fails to parse as three integers, yet the merge produces
`1.2.4` (the string max `1.2.3` parses fine), not the fallback `1.0.1`. -/
theorem C2_counterexample : ¬ C2Claim := by
  intro h
  have hc := h "T" [mkRec "A" "d" "0.0" "p1", mkRec "B" "d" "1.2.3" "p2"]
    (by decide) ⟨mkRec "A" "d" "0.0" "p1", by decide, by decide⟩
  revert hc
  decide

/-- Witness for C2 (amended): `latest` is the string max of
`{latest, 1.2.3}` and fails to parse, so the master version is `1.0.1`. -/
theorem C2_version_fallback_witness :
    (consolidate_cluster "T"
      [mkRec "A" "d" "latest" "p1", mkRec "B" "d" "1.2.3" "p2"]).map (fun m => m.version)
      = some "1.0.1" :=
  (C2_version_fallback "T"
    [mkRec "A" "d" "latest" "p1", mkRec "B" "d" "1.2.3" "p2"] (by decide)).1 (by decide)

/-! ## Run summary -/

/-- C8 corrected: a successful run summary carries all eight keys with
status `success`; the empty-discovery run terminates after discovery with
the distinct `no_skills_found` status but returns only the two keys
`status` and `skills_discovered` (spec names `skillsDiscovered` etc.), not
all eight. The status is always one of `success` / `no_skills_found` (the
`error` value never arises from this path). -/
theorem C8_summary_keys (sim : Nat → Nat → ℚ) (t : ℚ) (fileExists : String → Bool)
    (archive_dir skills_dir now : String) (skills : List SkillRecord) :
    (skills = [] →
      run_full_orchestration sim t fileExists archive_dir skills_dir now skills
        = [("status", SVal.s "no_skills_found"), ("skills_discovered", SVal.n 0)]) ∧
    (skills ≠ [] →
      (∀ k ∈ summaryKeys,
        (alookup (run_full_orchestration sim t fileExists archive_dir skills_dir now skills)
          k).isSome = true) ∧
      alookup (run_full_orchestration sim t fileExists archive_dir skills_dir now skills)
        "status" = some (SVal.s "success")) := by
  constructor
  · intro h
    subst h
    rfl
  · intro h
    unfold run_full_orchestration
    rw [if_neg h]
    refine ⟨?_, rfl⟩
    intro k hk
    fin_cases hk <;> rfl

/-- C8 as stated is false: for an empty discovery the summary has no
`clusters_created` key at all (the early return carries only two keys). -/
theorem C8_counterexample : ¬ C8Claim := by
  intro h
  have hc := (h (fun _ _ => 0) 1 (fun _ => true) "archive" "skills" "T" []).1
    "clusters_created" (by decide)
  revert hc
  decide

/-- Witness for C8 (amended): both branches at concrete inputs. -/
theorem C8_summary_keys_witness :
    run_full_orchestration simPair 1 (fun _ => true) "archive" "skills" "T" []
      = [("status", SVal.s "no_skills_found"), ("skills_discovered", SVal.n 0)] ∧
    alookup (run_full_orchestration simPair 1 (fun _ => true) "archive" "skills" "T"
      [mkRec "A" "d" "1.0.0" "p"]) "status" = some (SVal.s "success") :=
  ⟨(C8_summary_keys simPair 1 (fun _ => true) "archive" "skills" "T" []).1 rfl,
   ((C8_summary_keys simPair 1 (fun _ => true) "archive" "skills" "T"
      [mkRec "A" "d" "1.0.0" "p"]).2 (by decide)).2⟩

lemma consolidate_isSome_of_len {now : String} {cskills : List SkillRecord}
    (h : 1 < cskills.length) : (consolidate_cluster now cskills).isSome = true := by
  rcases cskills with _ | ⟨s0, rest⟩
  · simp at h
  · exact consolidate_cons_isSome now s0 rest (by simp only [List.length_cons] at h ⊢; omega)

lemma consolidationPhase_length_le (now : String) :
    ∀ clusters : List (String × List SkillRecord),
      (consolidationPhase now clusters).1.length ≤ clusters.length := by
  intro clusters
  induction clusters with
  | nil => simp [consolidationPhase]
  | cons p rest ih =>
    rcases p with ⟨cid, cskills⟩
    unfold consolidationPhase
    by_cases hlen : 1 < cskills.length
    · rw [if_pos hlen]
      rcases hcon : consolidate_cluster now cskills with _ | m
      · calc (consolidationPhase now rest).1.length
            ≤ rest.length := ih
          _ ≤ ((cid, cskills) :: rest).length := by simp
      · simp only [List.length_cons]
        omega
    · rw [if_neg hlen]
      calc (consolidationPhase now rest).1.length
          ≤ rest.length := ih
        _ ≤ ((cid, cskills) :: rest).length := by simp

lemma consolidationPhase_archivable (now : String) :
    ∀ clusters : List (String × List SkillRecord),
      (consolidationPhase now clusters).2
        = ((clusters.filter fun p => decide (1 < p.2.length)).map
            (fun p => p.2.map (fun s => s.name))).flatten := by
  intro clusters
  induction clusters with
  | nil => rfl
  | cons p rest ih =>
    rcases p with ⟨cid, cskills⟩
    unfold consolidationPhase
    rw [List.filter_cons]
    by_cases hlen : 1 < cskills.length
    · rw [if_pos hlen, if_pos (by simpa using hlen)]
      have hs := @consolidate_isSome_of_len now cskills hlen
      rcases hcon : consolidate_cluster now cskills with _ | m
      · rw [hcon] at hs
        simp at hs
      · simp only [List.map_cons, List.flatten_cons]
        rw [ih]
    · rw [if_neg hlen, if_neg (by simpa using hlen)]
      exact ih

lemma cluster_skills_length_le (skills : List SkillRecord) (sim : Nat → Nat → ℚ)
    (t : ℚ) : (cluster_skills skills sim t).length ≤ skills.length := by
  unfold cluster_skills
  split
  · simp
  · rw [attachClusterIds_length, List.length_map]
    exact clusterIdx_length_le sim t skills.length

lemma sublist_flatten {α : Type} {L1 L2 : List (List α)} (h : L1.Sublist L2) :
    L1.flatten.Sublist L2.flatten := by
  induction h with
  | slnil => exact List.Sublist.refl _
  | cons l _ ih =>
    rw [List.flatten_cons]
    exact ih.trans (List.sublist_append_right l _)
  | cons₂ l _ ih =>
    rw [List.flatten_cons, List.flatten_cons]
    exact ih.append_left l

lemma filter_mem_length {A L : List String} (hA : A.Nodup) (hL : L.Nodup)
    (hsub : ∀ x ∈ L, x ∈ A) :
    (A.filter (fun x => decide (x ∈ L))).length = L.length := by
  have hperm : (A.filter (fun x => decide (x ∈ L))).Perm L := by
    rw [List.perm_ext_iff_of_nodup (List.Nodup.filter _ hA) hL]
    intro x
    rw [List.mem_filter]
    simp only [decide_eq_true_eq]
    constructor
    · rintro ⟨_, h⟩
      exact h
    · intro h
      exact ⟨hsub x h, h⟩
  exact hperm.length_eq

/-- C3 corrected: on every completed (non-empty) run the summary counts
satisfy `skillsConsolidated ≤ clustersCreated ≤ skillsDiscovered`
unconditionally; `skillsArchived` equals the total record count across the
consolidated clusters provided the discovered skill names are pairwise
distinct (the data model's per-run uniqueness) and every source file still
exists — archival matches by name, so duplicate names inflate the count. -/
theorem C3_summary_counts (sim : Nat → Nat → ℚ) (t : ℚ) (fileExists : String → Bool)
    (archive_dir skills_dir now : String) (skills : List SkillRecord)
    (h1 : skills ≠ []) :
    ∃ kc cc sd sa : Nat,
      alookup (run_full_orchestration sim t fileExists archive_dir skills_dir now skills)
        "skills_consolidated" = some (SVal.n kc) ∧
      alookup (run_full_orchestration sim t fileExists archive_dir skills_dir now skills)
        "clusters_created" = some (SVal.n cc) ∧
      alookup (run_full_orchestration sim t fileExists archive_dir skills_dir now skills)
        "skills_discovered" = some (SVal.n sd) ∧
      alookup (run_full_orchestration sim t fileExists archive_dir skills_dir now skills)
        "skills_archived" = some (SVal.n sa) ∧
      kc ≤ cc ∧ cc ≤ sd ∧
      ((skills.map (fun s => s.name)).Nodup →
        (∀ s ∈ skills, fileExists s.file_path = true) →
        sa = multiClusterSum (cluster_skills skills sim t)) := by
  refine ⟨(consolidationPhase now (cluster_skills skills sim t)).1.length,
    (cluster_skills skills sim t).length, skills.length,
    (archive_original_skills fileExists archive_dir skills
      (consolidationPhase now (cluster_skills skills sim t)).2).length,
    ?_, ?_, ?_, ?_, ?_, ?_, ?_⟩
  · unfold run_full_orchestration
    rw [if_neg h1]
    rfl
  · unfold run_full_orchestration
    rw [if_neg h1]
    rfl
  · unfold run_full_orchestration
    rw [if_neg h1]
    rfl
  · unfold run_full_orchestration
    rw [if_neg h1]
    rfl
  · exact consolidationPhase_length_le now _
  · exact cluster_skills_length_le skills sim t
  · intro h2 h3
    rw [archive_eq_selection, List.length_map]
    unfold archiveSelection
    rw [consolidationPhase_archivable]
    have hfe : skills.filter (fun s =>
        decide (s.name ∈ (((cluster_skills skills sim t).filter
          (fun p => decide (1 < p.2.length))).map
            (fun p => p.2.map (fun s => s.name))).flatten) && fileExists s.file_path)
        = skills.filter (fun s =>
        decide (s.name ∈ (((cluster_skills skills sim t).filter
          (fun p => decide (1 < p.2.length))).map
            (fun p => p.2.map (fun s => s.name))).flatten)) := by
      refine List.filter_congr ?_
      intro s hs
      rw [h3 s hs, Bool.and_true]
    rw [hfe]
    have hsubl : ((((cluster_skills skills sim t).filter
        (fun p => decide (1 < p.2.length))).map (fun p => p.2)).flatten).Sublist
        (((cluster_skills skills sim t).map (fun p => p.2)).flatten) :=
      sublist_flatten ((List.filter_sublist (cluster_skills skills sim t)).map _)
    have hperm := cluster_skills_flatten_perm skills sim t
    have hLm : ((((cluster_skills skills sim t).filter
        (fun p => decide (1 < p.2.length))).map
          (fun p => p.2.map (fun s => s.name))).flatten)
        = (((((cluster_skills skills sim t).filter
            (fun p => decide (1 < p.2.length))).map (fun p => p.2)).flatten).map
              (fun s => s.name)) := by
      rw [List.map_flatten, List.map_map]
      rfl
    have hsubset : ∀ x ∈ ((((cluster_skills skills sim t).filter
        (fun p => decide (1 < p.2.length))).map
          (fun p => p.2.map (fun s => s.name))).flatten),
        x ∈ skills.map (fun s => s.name) := by
      intro x hx
      rw [hLm] at hx
      rcases List.mem_map.mp hx with ⟨r, hr, rfl⟩
      exact List.mem_map.mpr ⟨r, hperm.subset (hsubl.subset hr), rfl⟩
    have hLnd : ((((cluster_skills skills sim t).filter
        (fun p => decide (1 < p.2.length))).map
          (fun p => p.2.map (fun s => s.name))).flatten).Nodup := by
      rw [hLm]
      refine List.Nodup.sublist (hsubl.map (fun s => s.name)) ?_
      exact (List.Perm.nodup_iff (hperm.map (fun s => s.name))).mpr h2
    have hlift : ((skills.map (fun s => s.name)).filter (fun x =>
        decide (x ∈ ((((cluster_skills skills sim t).filter
          (fun p => decide (1 < p.2.length))).map
            (fun p => p.2.map (fun s => s.name))).flatten)))).length
        = (skills.filter (fun s =>
        decide (s.name ∈ (((cluster_skills skills sim t).filter
          (fun p => decide (1 < p.2.length))).map
            (fun p => p.2.map (fun s => s.name))).flatten))).length := by
      rw [List.filter_map, List.length_map]
      rfl
    have hpred : (cluster_skills skills sim t).filter (fun p => decide (2 ≤ p.2.length))
        = (cluster_skills skills sim t).filter (fun p => decide (1 < p.2.length)) := by
      refine List.filter_congr ?_
      intro p _
      rw [Bool.eq_iff_iff]
      simp only [decide_eq_true_eq]
      omega
    rw [← hlift, filter_mem_length h2 hLnd hsubset, hLm, List.length_map,
      List.length_flatten, List.map_map]
    unfold multiClusterSum
    rw [hpred]
    congr 1

/-- C3 as stated is false: with records named `X`, `Y`, `X` where only the
first two cluster together, archival matches the singleton's duplicate
name `X` as well — 3 files are archived although the consolidated cluster
has only 2 records. -/
theorem C3_counterexample : ¬ C3Claim := by
  intro h
  rcases h simPair 1 (fun _ => true) "archive" "skills" "T"
      [mkRec "X" "dx" "1.0.0" "skills/a.md", mkRec "Y" "dy" "1.0.0" "skills/b.md",
       mkRec "X" "dz" "1.0.0" "skills/c.md"] (by decide)
    with ⟨kc, cc, sd, sa, _, _, _, e4, _, _, e7⟩
  have h4 : alookup (run_full_orchestration simPair 1 (fun _ => true) "archive" "skills"
      "T" [mkRec "X" "dx" "1.0.0" "skills/a.md", mkRec "Y" "dy" "1.0.0" "skills/b.md",
       mkRec "X" "dz" "1.0.0" "skills/c.md"]) "skills_archived" = some (SVal.n 3) := by
    decide
  rw [h4] at e4
  simp only [Option.some.injEq, SVal.n.injEq] at e4
  have hm : multiClusterSum (cluster_skills
      [mkRec "X" "dx" "1.0.0" "skills/a.md", mkRec "Y" "dy" "1.0.0" "skills/b.md",
       mkRec "X" "dz" "1.0.0" "skills/c.md"] simPair 1) = 2 := by decide
  rw [hm] at e7
  omega

/-- Witness for C3 (amended) at a concrete three-record run with distinct
names: the inequalities hold and two files are archived for the one
consolidated two-record cluster. -/
theorem C3_summary_counts_witness :
    ∃ kc cc sd sa : Nat,
      alookup (run_full_orchestration simPair 1 (fun _ => true) "archive" "skills" "T"
        [mkRec "A" "da" "1.0.0" "skills/a.md", mkRec "B" "db" "1.0.0" "skills/b.md",
         mkRec "C" "dc" "1.0.0" "skills/c.md"]) "skills_consolidated" = some (SVal.n kc) ∧
      alookup (run_full_orchestration simPair 1 (fun _ => true) "archive" "skills" "T"
        [mkRec "A" "da" "1.0.0" "skills/a.md", mkRec "B" "db" "1.0.0" "skills/b.md",
         mkRec "C" "dc" "1.0.0" "skills/c.md"]) "clusters_created" = some (SVal.n cc) ∧
      alookup (run_full_orchestration simPair 1 (fun _ => true) "archive" "skills" "T"
        [mkRec "A" "da" "1.0.0" "skills/a.md", mkRec "B" "db" "1.0.0" "skills/b.md",
         mkRec "C" "dc" "1.0.0" "skills/c.md"]) "skills_discovered" = some (SVal.n sd) ∧
      alookup (run_full_orchestration simPair 1 (fun _ => true) "archive" "skills" "T"
        [mkRec "A" "da" "1.0.0" "skills/a.md", mkRec "B" "db" "1.0.0" "skills/b.md",
         mkRec "C" "dc" "1.0.0" "skills/c.md"]) "skills_archived" = some (SVal.n sa) ∧
      kc ≤ cc ∧ cc ≤ sd ∧
      (([mkRec "A" "da" "1.0.0" "skills/a.md", mkRec "B" "db" "1.0.0" "skills/b.md",
          mkRec "C" "dc" "1.0.0" "skills/c.md"].map (fun s => s.name)).Nodup →
        (∀ s ∈ [mkRec "A" "da" "1.0.0" "skills/a.md", mkRec "B" "db" "1.0.0" "skills/b.md",
          mkRec "C" "dc" "1.0.0" "skills/c.md"],
            (fun _ => true) s.file_path = true) →
        sa = multiClusterSum (cluster_skills
          [mkRec "A" "da" "1.0.0" "skills/a.md", mkRec "B" "db" "1.0.0" "skills/b.md",
           mkRec "C" "dc" "1.0.0" "skills/c.md"] simPair 1)) :=
  C3_summary_counts simPair 1 (fun _ => true) "archive" "skills" "T"
    [mkRec "A" "da" "1.0.0" "skills/a.md", mkRec "B" "db" "1.0.0" "skills/b.md",
     mkRec "C" "dc" "1.0.0" "skills/c.md"] (by decide)

/-- C6 corrected: clusters of size ≤ 1 are never consolidated, and —
provided the discovered skill names are pairwise distinct, as the data
model assumes per run — no record of a size-1 cluster is ever selected for
archival (its file is never moved, so it never contributes to
`archivedFiles`, whose entries are exactly the destinations of the
selected records). With duplicate names a singleton's record can be
archived through a consolidated record's name. -/
theorem C6_singletons (now : String) (sim : Nat → Nat → ℚ) (t : ℚ)
    (fileExists : String → Bool) (archive_dir : String) (skills : List SkillRecord)
    (hnd : (skills.map (fun s => s.name)).Nodup) :
    (∀ (now2 : String) (cskills : List SkillRecord), cskills.length ≤ 1 →
      consolidate_cluster now2 cskills = none) ∧
    (archive_original_skills fileExists archive_dir skills
        (consolidationPhase now (cluster_skills skills sim t)).2
      = (archiveSelection fileExists skills
          (consolidationPhase now (cluster_skills skills sim t)).2).map
          (fun s => archive_dir ++ "/" ++ basename s.file_path)) ∧
    (∀ p ∈ cluster_skills skills sim t, p.2.length = 1 → ∀ r ∈ p.2,
      r ∉ archiveSelection fileExists skills
        (consolidationPhase now (cluster_skills skills sim t)).2) := by
  refine ⟨?_, archive_eq_selection _ _ _ _, ?_⟩
  · intro now2 cskills h
    unfold consolidate_cluster
    rw [if_pos h]
  · intro p hp hlen r hr hsel
    have hperm := cluster_skills_flatten_perm skills sim t
    have hsknd : skills.Nodup := List.Nodup.of_map _ hnd
    have hflat : ((cluster_skills skills sim t).map Prod.snd).flatten.Nodup :=
      (List.Perm.nodup_iff hperm).mpr hsknd
    rcases List.mem_filter.mp hsel with ⟨hrsk, hcond⟩
    rw [Bool.and_eq_true, decide_eq_true_eq] at hcond
    have hname := hcond.1
    rw [consolidationPhase_archivable] at hname
    rcases List.mem_flatten.mp hname with ⟨nl, hnl, hx⟩
    rcases List.mem_map.mp hnl with ⟨q, hq, rfl⟩
    rcases List.mem_filter.mp hq with ⟨hqmem, hqlen⟩
    rw [decide_eq_true_eq] at hqlen
    rcases List.mem_map.mp hx with ⟨r2, hr2, hnameEq⟩
    have hr2sk : r2 ∈ skills := by
      refine hperm.subset (List.mem_flatten.mpr ⟨q.2, ?_, hr2⟩)
      exact List.mem_map.mpr ⟨q, hqmem, rfl⟩
    have hrr2 : r2 = r := List.inj_on_of_nodup_map hnd hr2sk hrsk hnameEq
    subst hrr2
    have hne : p.2 ≠ q.2 := by
      intro heq
      rw [heq] at hlen
      omega
    have hdisj := (List.nodup_flatten.mp hflat).2
    have hdisj2 : p.2.Disjoint q.2 := by
      refine List.Pairwise.forall ?_ hdisj
        (List.mem_map.mpr ⟨p, hp, rfl⟩) (List.mem_map.mpr ⟨q, hqmem, rfl⟩) hne
      intro a b hab x hx1 hx2
      exact hab hx2 hx1
    exact hdisj2 hr hr2

/-- C6 as stated is false: with records named `X`, `Y`, `X` (only the first
two similar), the third record sits in a size-1 cluster, yet archival
matches it by its duplicate name `X` and moves its file. -/
theorem C6_counterexample : ¬ C6Claim := by
  intro h
  have hc := h.2 simPair 1 (fun _ => true) "T"
    [mkRec "X" "dx" "1.0.0" "skills/a.md", mkRec "Y" "dy" "1.0.0" "skills/b.md",
     mkRec "X" "dz" "1.0.0" "skills/c.md"]
    ("cluster_1", [mkRec "X" "dz" "1.0.0" "skills/c.md"])
    (mkRec "X" "dz" "1.0.0" "skills/c.md") (by decide) (by decide) (by decide)
  exact hc (by decide)

/-- Witness for C6 (amended): a singleton cluster is not consolidated, and
with distinct names its record is not selected for archival. -/
theorem C6_singletons_witness :
    consolidate_cluster "T" [mkRec "A" "d" "1.0.0" "p"] = none ∧
    (mkRec "C" "dc" "1.0.0" "skills/c.md") ∉ archiveSelection (fun _ => true)
      [mkRec "A" "da" "1.0.0" "skills/a.md", mkRec "B" "db" "1.0.0" "skills/b.md",
       mkRec "C" "dc" "1.0.0" "skills/c.md"]
      (consolidationPhase "T" (cluster_skills
        [mkRec "A" "da" "1.0.0" "skills/a.md", mkRec "B" "db" "1.0.0" "skills/b.md",
         mkRec "C" "dc" "1.0.0" "skills/c.md"] simPair 1)).2 := by
  have h := C6_singletons "T" simPair 1 (fun _ => true) "archive"
    [mkRec "A" "da" "1.0.0" "skills/a.md", mkRec "B" "db" "1.0.0" "skills/b.md",
     mkRec "C" "dc" "1.0.0" "skills/c.md"] (by decide)
  exact ⟨h.1 "T" _ (by decide),
    h.2.2 ("cluster_1", [mkRec "C" "dc" "1.0.0" "skills/c.md"]) (by decide) (by decide)
      _ (by decide)⟩

/-! ## Writer / parser round trip -/

lemma splitAtMarker_cons (c : Char) (rest : List Char) :
    splitAtMarker (c :: rest)
      = if c = '\n' ∧ rest.take 4 = ['-', '-', '-', '\n'] then some ([], rest.drop 4)
        else (splitAtMarker rest).map fun p => (c :: p.1, p.2) := rfl

lemma splitAtMarker_prepend (l : List Char) (hn : '\n' ∉ l) (rest : List Char) :
    splitAtMarker (l ++ rest)
      = (splitAtMarker rest).map fun p => (l ++ p.1, p.2) := by
  induction l with
  | nil =>
    rw [List.nil_append]
    cases h : splitAtMarker rest <;> simp
  | cons c l2 ih =>
    have hc : ¬(c = '\n') := fun h => hn (h ▸ List.mem_cons_self _ _)
    rw [List.cons_append, splitAtMarker_cons, if_neg (fun h => hc h.1),
      ih (fun h => hn (List.mem_cons.mpr (Or.inr h)))]
    cases h : splitAtMarker rest <;> simp

lemma take4_ne_marker (l z : List Char) (hn : '\n' ∉ l) (hne : l ≠ ['-', '-', '-']) :
    (l ++ '\n' :: z).take 4 ≠ ['-', '-', '-', '\n'] := by
  rcases l with _ | ⟨a, _ | ⟨b, _ | ⟨c, _ | ⟨d, tl⟩⟩⟩⟩
  · intro hEq
    simp [List.take] at hEq
  · intro hEq
    simp [List.take] at hEq
  · intro hEq
    simp [List.take] at hEq
  · intro hEq
    simp only [List.cons_append, List.nil_append, List.take, List.cons.injEq] at hEq
    exact hne (by rw [hEq.1, hEq.2.1, hEq.2.2.1])
  · intro hEq
    simp only [List.cons_append, List.take, List.cons.injEq] at hEq
    apply hn
    rw [hEq.2.2.2.1]
    exact List.mem_cons.mpr (Or.inr (List.mem_cons.mpr (Or.inr
      (List.mem_cons.mpr (Or.inr (List.mem_cons_self _ _))))))

lemma splitAtMarker_join :
    ∀ (lines : List (List Char)) (z : List Char), lines ≠ [] →
      (∀ l ∈ lines, '\n' ∉ l ∧ l ≠ ['-', '-', '-']) →
      splitAtMarker (interNL lines ++ '\n' :: '-' :: '-' :: '-' :: '\n' :: z)
        = some (interNL lines, z) := by
  intro lines
  induction lines with
  | nil => intro z h; exact absurd rfl h
  | cons l rest ih =>
    intro z _ hok
    rcases hok l (List.mem_cons_self _ _) with ⟨hln, _⟩
    cases rest with
    | nil =>
      show splitAtMarker (l ++ '\n' :: '-' :: '-' :: '-' :: '\n' :: z) = some (l, z)
      rw [splitAtMarker_prepend l hln, splitAtMarker_cons, if_pos ⟨rfl, rfl⟩]
      simp
    | cons l2 rest2 =>
      have hstep : interNL (l :: l2 :: rest2) = l ++ '\n' :: interNL (l2 :: rest2) := rfl
      rw [hstep, List.append_assoc, List.cons_append]
      rw [splitAtMarker_prepend l hln]
      have hshape : ∃ z2, interNL (l2 :: rest2) ++ '\n' :: '-' :: '-' :: '-' :: '\n' :: z
          = l2 ++ '\n' :: z2 := by
        cases rest2 with
        | nil => exact ⟨'-' :: '-' :: '-' :: '\n' :: z, rfl⟩
        | cons l3 rest3 =>
          refine ⟨interNL (l3 :: rest3) ++ '\n' :: '-' :: '-' :: '-' :: '\n' :: z, ?_⟩
          show (l2 ++ '\n' :: interNL (l3 :: rest3)) ++ '\n' :: '-' :: '-' :: '-' :: '\n' :: z
              = l2 ++ '\n' :: (interNL (l3 :: rest3) ++ '\n' :: '-' :: '-' :: '-' :: '\n' :: z)
          rw [List.append_assoc, List.cons_append]
      have hcond : ¬((('\n' : Char) = '\n') ∧
          (interNL (l2 :: rest2) ++ '\n' :: '-' :: '-' :: '-' :: '\n' :: z).take 4
            = ['-', '-', '-', '\n']) := by
        rintro ⟨_, htake⟩
        rcases hshape with ⟨z2, hz2⟩
        rw [hz2] at htake
        rcases hok l2 (List.mem_cons.mpr (Or.inr (List.mem_cons_self _ _))) with ⟨h2n, h2ne⟩
        exact take4_ne_marker l2 z2 h2n h2ne htake
      rw [splitAtMarker_cons, if_neg hcond]
      rw [ih z (by simp) (fun q hq => hok q (List.mem_cons.mpr (Or.inr hq)))]
      rfl

lemma joinNL_eq_interNL :
    ∀ lines : List (List Char), lines ≠ [] →
      ((lines.map (fun l => l ++ ['\n'])).flatten) = interNL lines ++ ['\n'] := by
  intro lines
  induction lines with
  | nil => intro h; exact absurd rfl h
  | cons l rest ih =>
    intro _
    cases rest with
    | nil => simp [interNL]
    | cons l2 rest2 =>
      rw [List.map_cons, List.flatten_cons, ih (by simp)]
      show (l ++ ['\n']) ++ (interNL (l2 :: rest2) ++ ['\n'])
          = (l ++ '\n' :: interNL (l2 :: rest2)) ++ ['\n']
      rw [List.append_assoc, List.append_assoc]
      rfl

lemma splitLinesAux_nil (cur : List Char) : splitLinesAux cur [] = [cur.reverse] := rfl

lemma splitLinesAux_cons (cur : List Char) (c : Char) (rest : List Char) :
    splitLinesAux cur (c :: rest)
      = if c = '\n' then cur.reverse :: splitLinesAux [] rest
        else splitLinesAux (c :: cur) rest := rfl

lemma splitLinesAux_prepend (l : List Char) (hn : '\n' ∉ l) :
    ∀ (cur rest : List Char),
      splitLinesAux cur (l ++ rest) = splitLinesAux (l.reverse ++ cur) rest := by
  induction l with
  | nil => intro cur rest; rfl
  | cons c l2 ih =>
    intro cur rest
    have hc : ¬(c = '\n') := fun h => hn (h ▸ List.mem_cons_self _ _)
    rw [List.cons_append, splitLinesAux_cons, if_neg hc,
      ih (fun h => hn (List.mem_cons.mpr (Or.inr h)))]
    congr 1
    simp

lemma splitLines_interNL :
    ∀ lines : List (List Char), lines ≠ [] → (∀ l ∈ lines, '\n' ∉ l) →
      splitLines (interNL lines) = lines := by
  intro lines
  induction lines with
  | nil => intro h; exact absurd rfl h
  | cons l rest ih =>
    intro _ hok
    cases rest with
    | nil =>
      show splitLinesAux [] l = [l]
      have h0 : splitLinesAux [] (l ++ []) = splitLinesAux (l.reverse ++ []) [] :=
        splitLinesAux_prepend l (hok l (List.mem_cons_self _ _)) [] []
      rw [List.append_nil] at h0
      rw [h0, splitLinesAux_nil, List.append_nil, List.reverse_reverse]
    | cons l2 rest2 =>
      show splitLinesAux [] (l ++ '\n' :: interNL (l2 :: rest2)) = l :: l2 :: rest2
      rw [splitLinesAux_prepend l (hok l (List.mem_cons_self _ _)), List.append_nil,
        splitLinesAux_cons, if_pos rfl, List.reverse_reverse]
      exact congrArg _ (ih (by simp) (fun q hq => hok q (List.mem_cons.mpr (Or.inr hq))))

lemma pyStrip_cons_space {c : Char} (hc : pyIsSpace c = true) (l : List Char) :
    pyStrip (c :: l) = pyStrip l := by
  unfold pyStrip
  rw [List.dropWhile_cons, if_pos hc]

lemma pyStrip_append_newline (l : List Char) :
    pyStrip (l ++ ['\n']) = pyStrip l := by
  unfold pyStrip
  rw [List.dropWhile_append]
  by_cases h : (l.dropWhile pyIsSpace).isEmpty = true
  · rw [if_pos h]
    have h2 : l.dropWhile pyIsSpace = [] := by
      rwa [List.isEmpty_iff] at h
    rw [h2]
    rfl
  · rw [if_neg h, List.reverse_append]
    show (('\n' :: (l.dropWhile pyIsSpace).reverse).dropWhile pyIsSpace).reverse
        = ((l.dropWhile pyIsSpace).reverse.dropWhile pyIsSpace).reverse
    rw [List.dropWhile_cons, if_pos (show pyIsSpace '\n' = true from rfl)]

lemma pyStrip_wrap (l : List Char) :
    pyStrip ('\n' :: (l ++ ['\n'])) = pyStrip l := by
  rw [pyStrip_cons_space (show pyIsSpace '\n' = true from rfl), pyStrip_append_newline]
lemma scalar_line_ok {kc : List Char} {v : String} (hkn : '\n' ∉ kc)
    (hkh : kc.head? ≠ some '-') (hv : '\n' ∉ v.data) :
    '\n' ∉ (kc ++ ':' :: ' ' :: dumpScalarChars v) ∧
      kc ++ ':' :: ' ' :: dumpScalarChars v ≠ ['-', '-', '-'] := by
  constructor
  · intro hmem
    rcases List.mem_append.mp hmem with h | h
    · exact hkn h
    · rcases List.mem_cons.mp h with h | h
      · exact absurd h (by decide)
      · rcases List.mem_cons.mp h with h | h
        · exact absurd h (by decide)
        · unfold dumpScalarChars at h
          split at h
          · rcases List.mem_cons.mp h with h | h
            · exact absurd h (by decide)
            · rcases List.mem_cons.mp h with h | h
              · exact absurd h (by decide)
              · simp at h
          · exact hv h
  · intro hEq
    cases kc with
    | nil =>
      rw [List.nil_append] at hEq
      injection hEq with h1 _
      exact absurd h1 (by decide)
    | cons a tl =>
      rw [List.cons_append] at hEq
      injection hEq with h1 _
      exact hkh (by rw [List.head?_cons, h1])

lemma list_header_line_ok {kc : List Char} (hkn : '\n' ∉ kc)
    (hkh : kc.head? ≠ some '-') :
    '\n' ∉ (kc ++ [':']) ∧ kc ++ [':'] ≠ ['-', '-', '-'] := by
  constructor
  · intro hmem
    rcases List.mem_append.mp hmem with h | h
    · exact hkn h
    · rcases List.mem_cons.mp h with h | h
      · exact absurd h (by decide)
      · simp at h
  · intro hEq
    cases kc with
    | nil =>
      rw [List.nil_append] at hEq
      injection hEq with h1 _
      exact absurd h1 (by decide)
    | cons a tl =>
      rw [List.cons_append] at hEq
      injection hEq with h1 _
      exact hkh (by rw [List.head?_cons, h1])

lemma empty_list_line_ok {kc : List Char} (hkn : '\n' ∉ kc)
    (hkh : kc.head? ≠ some '-') :
    '\n' ∉ (kc ++ ':' :: ' ' :: '[' :: [']']) ∧
      kc ++ ':' :: ' ' :: '[' :: [']'] ≠ ['-', '-', '-'] := by
  constructor
  · intro hmem
    rcases List.mem_append.mp hmem with h | h
    · exact hkn h
    · rcases List.mem_cons.mp h with h | h
      · exact absurd h (by decide)
      · rcases List.mem_cons.mp h with h | h
        · exact absurd h (by decide)
        · rcases List.mem_cons.mp h with h | h
          · exact absurd h (by decide)
          · rcases List.mem_cons.mp h with h | h
            · exact absurd h (by decide)
            · simp at h
  · intro hEq
    cases kc with
    | nil =>
      rw [List.nil_append] at hEq
      injection hEq with h1 _
      exact absurd h1 (by decide)
    | cons a tl =>
      rw [List.cons_append] at hEq
      injection hEq with h1 _
      exact hkh (by rw [List.head?_cons, h1])

lemma item_line_ok {v : String} (hv : '\n' ∉ v.data) :
    '\n' ∉ ('-' :: ' ' :: v.data) ∧ ('-' :: ' ' :: v.data) ≠ ['-', '-', '-'] := by
  constructor
  · intro hmem
    rcases List.mem_cons.mp hmem with h | h
    · exact absurd h (by decide)
    · rcases List.mem_cons.mp h with h | h
      · exact absurd h (by decide)
      · exact hv h
  · intro hEq
    injection hEq with _ h2
    injection h2 with h3 _
    exact absurd h3 (by decide)

lemma dumpLines_master_ok (m : MasterSkill)
    (h1 : plainScalar m.name) (h2 : plainScalar m.description) (h3 : plainScalar m.version)
    (h4 : plainScalar m.author) (h5 : plainScalar m.category)
    (h6 : ∀ v ∈ m.tags, '\n' ∉ v.data) (h7 : ∀ v ∈ m.merged_from, '\n' ∉ v.data) :
    ∀ l ∈ dumpLines (masterMetadata m), '\n' ∉ l ∧ l ≠ ['-', '-', '-'] := by
  intro l hl
  unfold dumpLines masterMetadata at hl
  simp only [List.map_cons, List.map_nil, List.flatten_cons, List.flatten_nil,
    List.append_nil, List.mem_append] at hl
  rcases hl with h | h | h | h | h | h | h
  · unfold dumpEntryLines at h
    rw [List.mem_singleton] at h
    subst h
    exact scalar_line_ok (by decide) (by decide) h1.1
  · unfold dumpEntryLines at h
    rw [List.mem_singleton] at h
    subst h
    exact scalar_line_ok (by decide) (by decide) h2.1
  · unfold dumpEntryLines at h
    rw [List.mem_singleton] at h
    subst h
    exact scalar_line_ok (by decide) (by decide) h3.1
  · unfold dumpEntryLines at h
    rw [List.mem_singleton] at h
    subst h
    exact scalar_line_ok (by decide) (by decide) h4.1
  · unfold dumpEntryLines at h
    rw [List.mem_singleton] at h
    subst h
    exact scalar_line_ok (by decide) (by decide) h5.1
  · cases htags : m.tags with
    | nil =>
      rw [htags] at h
      unfold dumpEntryLines at h
      rw [List.mem_singleton] at h
      subst h
      exact empty_list_line_ok (by decide) (by decide)
    | cons v vs =>
      rw [htags] at h
      unfold dumpEntryLines at h
      rcases List.mem_cons.mp h with h | h
      · subst h
        exact list_header_line_ok (by decide) (by decide)
      · rcases List.mem_map.mp h with ⟨w, hw, rfl⟩
        exact item_line_ok (h6 w (by rw [htags]; exact hw))
  · cases hmf : m.merged_from with
    | nil =>
      rw [hmf] at h
      unfold dumpEntryLines at h
      rw [List.mem_singleton] at h
      subst h
      exact empty_list_line_ok (by decide) (by decide)
    | cons v vs =>
      rw [hmf] at h
      unfold dumpEntryLines at h
      rcases List.mem_cons.mp h with h | h
      · subst h
        exact list_header_line_ok (by decide) (by decide)
      · rcases List.mem_map.mp h with ⟨w, hw, rfl⟩
        exact item_line_ok (h7 w (by rw [hmf]; exact hw))

lemma splitKVChars_cons (c : Char) (rest : List Char) :
    splitKVChars (c :: rest)
      = if c = ':' then
          match rest with
          | [] => some ([], [])
          | ' ' :: rest2 => some ([], rest2)
          | _ => (splitKVChars rest).map fun p => (c :: p.1, p.2)
        else (splitKVChars rest).map fun p => (c :: p.1, p.2) := rfl

lemma splitKV_entry (kc w : List Char) (hk : ':' ∉ kc) :
    splitKVChars (kc ++ ':' :: ' ' :: w) = some (kc, w) := by
  induction kc with
  | nil => rfl
  | cons c kc2 ih =>
    have hc : ¬(c = ':') := fun h => hk (h ▸ List.mem_cons_self _ _)
    rw [List.cons_append, splitKVChars_cons, if_neg hc,
      ih (fun h => hk (List.mem_cons.mpr (Or.inr h)))]
    rfl

lemma splitKV_header (kc : List Char) (hk : ':' ∉ kc) :
    splitKVChars (kc ++ [':']) = some (kc, []) := by
  induction kc with
  | nil => rfl
  | cons c kc2 ih =>
    have hc : ¬(c = ':') := fun h => hk (h ▸ List.mem_cons_self _ _)
    rw [List.cons_append, splitKVChars_cons, if_neg hc,
      ih (fun h => hk (List.mem_cons.mpr (Or.inr h)))]
    rfl

lemma loadLinesRev_cons (l : List Char) (rest : List (List Char)) :
    loadLinesRev (l :: rest) = (loadLinesRev rest).bind (loadLine l) := rfl

lemma loadLine_kv (l : List Char) (acc : List String × List (String × YVal))
    (k w : List Char) (hi : ¬(l.take 2 = ['-', ' ']))
    (hkv : splitKVChars l = some (k, w)) :
    loadLine l acc
      = (if w = [] then some ([], (⟨k⟩, YVal.l acc.1) :: acc.2)
         else if acc.1 = [] then
           if w = ['[', ']'] then some ([], (⟨k⟩, YVal.l []) :: acc.2)
           else some ([], (⟨k⟩, YVal.s (loadScalar w)) :: acc.2)
         else none) := by
  unfold loadLine
  rw [if_neg hi, hkv]

lemma loadLine_item (w : List Char) (acc : List String × List (String × YVal)) :
    loadLine ('-' :: ' ' :: w) acc = some (loadScalar w :: acc.1, acc.2) := by
  unfold loadLine
  rw [if_pos (show List.take 2 ('-' :: ' ' :: w) = ['-', ' '] from rfl)]
  rfl

lemma key_line_not_item {c0 : Char} (kc tail2 : List Char) (hc0 : ¬(c0 = '-')) :
    ¬(((c0 :: kc) ++ tail2).take 2 = ['-', ' ']) := by
  intro hEq
  rw [List.cons_append] at hEq
  rw [List.take] at hEq
  injection hEq with h1 _
  exact hc0 h1


lemma string_ne_of_data_ne {v : String} {l : List Char} (h : v.data ≠ l) :
    v ≠ ⟨l⟩ := by
  intro hq
  subst hq
  exact h rfl

lemma data_ne_of_string_ne {v : String} {l : List Char} (h : v ≠ ⟨l⟩) :
    v.data ≠ l := by
  intro hq
  exact h (by cases v; simp at hq; rw [hq])

lemma loadScalar_dump {v : String} (hv1 : v ≠ ⟨[squote, squote]⟩) :
    loadScalar (dumpScalarChars v) = v := by
  unfold dumpScalarChars loadScalar
  by_cases hve : v = ""
  · rw [if_pos hve, if_pos rfl, hve]
  · rw [if_neg hve, if_neg (data_ne_of_string_ne hv1)]

lemma loadLinesRev_scalar_entry {c0 : Char} {kc2 : List Char} {v : String}
    {tail : List (List Char)} {M : List (String × YVal)}
    (hc0 : ¬(c0 = '-')) (hkc : ':' ∉ (c0 :: kc2))
    (hv1 : v ≠ ⟨[squote, squote]⟩) (hv2 : v ≠ "[]")
    (hres : loadLinesRev tail = some ([], M)) :
    loadLinesRev (((c0 :: kc2) ++ ':' :: ' ' :: dumpScalarChars v) :: tail)
      = some ([], (⟨c0 :: kc2⟩, YVal.s v) :: M) := by
  rw [loadLinesRev_cons, hres]
  show loadLine ((c0 :: kc2) ++ ':' :: ' ' :: dumpScalarChars v) ([], M)
      = some ([], (⟨c0 :: kc2⟩, YVal.s v) :: M)
  rw [loadLine_kv _ _ _ _ (key_line_not_item kc2 _ hc0) (splitKV_entry _ _ hkc)]
  have hw0 : ¬(dumpScalarChars v = []) := by
    unfold dumpScalarChars
    by_cases hve : v = ""
    · rw [if_pos hve]
      decide
    · rw [if_neg hve]
      exact fun h => hve (by cases v; simp at h; rw [h])
  rw [if_neg hw0]
  rw [if_pos rfl]
  have hw2 : ¬(dumpScalarChars v = ['[', ']']) := by
    unfold dumpScalarChars
    by_cases hve : v = ""
    · rw [if_pos hve]
      decide
    · rw [if_neg hve]
      exact fun h => hv2 (by cases v; simp at h; rw [h])
  rw [if_neg hw2, loadScalar_dump hv1]

lemma loadLinesRev_empty_list_entry {c0 : Char} {kc2 : List Char}
    {tail : List (List Char)} {M : List (String × YVal)}
    (hc0 : ¬(c0 = '-')) (hkc : ':' ∉ (c0 :: kc2))
    (hres : loadLinesRev tail = some ([], M)) :
    loadLinesRev (((c0 :: kc2) ++ ':' :: ' ' :: '[' :: [']']) :: tail)
      = some ([], (⟨c0 :: kc2⟩, YVal.l []) :: M) := by
  rw [loadLinesRev_cons, hres]
  show loadLine ((c0 :: kc2) ++ ':' :: ' ' :: '[' :: [']']) ([], M)
      = some ([], (⟨c0 :: kc2⟩, YVal.l []) :: M)
  rw [loadLine_kv _ _ _ _ (key_line_not_item kc2 _ hc0) (splitKV_entry _ _ hkc)]
  rw [if_neg (by decide), if_pos rfl, if_pos rfl]

lemma loadLinesRev_items {vs : List String} {tail : List (List Char)}
    {M : List (String × YVal)} (hvs : ∀ v ∈ vs, v ≠ ⟨[squote, squote]⟩)
    (hres : loadLinesRev tail = some ([], M)) :
    loadLinesRev ((vs.map fun v => '-' :: ' ' :: v.data) ++ tail) = some (vs, M) := by
  induction vs with
  | nil => rw [List.map_nil, List.nil_append, hres]
  | cons v vs2 ih =>
    rw [List.map_cons, List.cons_append, loadLinesRev_cons,
      ih (fun q hq => hvs q (List.mem_cons.mpr (Or.inr hq)))]
    show loadLine ('-' :: ' ' :: v.data) (vs2, M) = some (v :: vs2, M)
    rw [loadLine_item]
    have hls : loadScalar v.data = v := by
      unfold loadScalar
      rw [if_neg (data_ne_of_string_ne (hvs v (List.mem_cons_self _ _)))]
    rw [hls]

lemma loadLinesRev_list_entry {c0 : Char} {kc2 : List Char} {vs : List String}
    {tail : List (List Char)} {M : List (String × YVal)}
    (hc0 : ¬(c0 = '-')) (hkc : ':' ∉ (c0 :: kc2))
    (hvs : ∀ v ∈ vs, v ≠ ⟨[squote, squote]⟩)
    (hres : loadLinesRev tail = some ([], M)) :
    loadLinesRev ((((c0 :: kc2) ++ [':']) :: vs.map (fun v => '-' :: ' ' :: v.data)) ++ tail)
      = some ([], (⟨c0 :: kc2⟩, YVal.l vs) :: M) := by
  rw [List.cons_append, loadLinesRev_cons, loadLinesRev_items hvs hres]
  show loadLine ((c0 :: kc2) ++ [':']) (vs, M)
      = some ([], (⟨c0 :: kc2⟩, YVal.l vs) :: M)
  rw [loadLine_kv _ _ _ _ (key_line_not_item kc2 _ hc0) (splitKV_header _ hkc)]
  rw [if_pos rfl]

lemma loadLinesRev_entry {k : String} {val : YVal} {tail : List (List Char)}
    {M : List (String × YVal)} (c0 : Char) (kc2 : List Char)
    (hdata : k.data = c0 :: kc2) (hc0 : ¬(c0 = '-')) (hkc : ':' ∉ k.data)
    (hval : match val with
            | YVal.s v => v ≠ ⟨[squote, squote]⟩ ∧ v ≠ "[]"
            | YVal.l vs => ∀ v ∈ vs, v ≠ ⟨[squote, squote]⟩)
    (hres : loadLinesRev tail = some ([], M)) :
    loadLinesRev (dumpEntryLines (k, val) ++ tail) = some ([], (k, val) :: M) := by
  have hkstr : (⟨c0 :: kc2⟩ : String) = k := by rw [← hdata]
  rw [hdata] at hkc
  cases val with
  | s v =>
    have hd : dumpEntryLines (k, YVal.s v)
        = [k.data ++ ':' :: ' ' :: dumpScalarChars v] := rfl
    rw [hd, hdata, List.singleton_append, ← hkstr]
    exact loadLinesRev_scalar_entry hc0 hkc hval.1 hval.2 hres
  | l vs =>
    cases vs with
    | nil =>
      have hd : dumpEntryLines (k, YVal.l [])
          = [k.data ++ ':' :: ' ' :: '[' :: [']']] := rfl
      rw [hd, hdata, List.singleton_append, ← hkstr]
      exact loadLinesRev_empty_list_entry hc0 hkc hres
    | cons v vs2 =>
      have hd : dumpEntryLines (k, YVal.l (v :: vs2))
          = (k.data ++ [':']) :: (v :: vs2).map fun v => '-' :: ' ' :: v.data := rfl
      rw [hd, hdata, ← hkstr]
      exact loadLinesRev_list_entry hc0 hkc hval hres

lemma loadLinesRev_master (m : MasterSkill)
    (h1 : plainScalar m.name) (h2 : plainScalar m.description) (h3 : plainScalar m.version)
    (h4 : plainScalar m.author) (h5 : plainScalar m.category)
    (h6 : ∀ v ∈ m.tags, v ≠ ⟨[squote, squote]⟩)
    (h7 : ∀ v ∈ m.merged_from, v ≠ ⟨[squote, squote]⟩) :
    loadLinesRev (dumpLines (masterMetadata m)) = some ([], masterMetadata m) := by
  have t7 : loadLinesRev (dumpEntryLines ("merged_from", YVal.l m.merged_from) ++ [])
      = some ([], [("merged_from", YVal.l m.merged_from)]) :=
    loadLinesRev_entry 'm' "erged_from".data (by decide) (by decide) (by decide) h7 rfl
  have t6 : loadLinesRev (dumpEntryLines ("tags", YVal.l m.tags) ++
        (dumpEntryLines ("merged_from", YVal.l m.merged_from) ++ []))
      = some ([], [("tags", YVal.l m.tags), ("merged_from", YVal.l m.merged_from)]) :=
    loadLinesRev_entry 't' "ags".data (by decide) (by decide) (by decide) h6 t7
  have t5 : loadLinesRev (dumpEntryLines ("category", YVal.s m.category) ++
        (dumpEntryLines ("tags", YVal.l m.tags) ++
          (dumpEntryLines ("merged_from", YVal.l m.merged_from) ++ [])))
      = some ([], [("category", YVal.s m.category), ("tags", YVal.l m.tags),
          ("merged_from", YVal.l m.merged_from)]) :=
    loadLinesRev_entry 'c' "ategory".data (by decide) (by decide) (by decide)
      ⟨h5.2.1, h5.2.2⟩ t6
  have t4 : loadLinesRev (dumpEntryLines ("author", YVal.s m.author) ++
        (dumpEntryLines ("category", YVal.s m.category) ++
          (dumpEntryLines ("tags", YVal.l m.tags) ++
            (dumpEntryLines ("merged_from", YVal.l m.merged_from) ++ []))))
      = some ([], [("author", YVal.s m.author), ("category", YVal.s m.category),
          ("tags", YVal.l m.tags), ("merged_from", YVal.l m.merged_from)]) :=
    loadLinesRev_entry 'a' "uthor".data (by decide) (by decide) (by decide)
      ⟨h4.2.1, h4.2.2⟩ t5
  have t3 : loadLinesRev (dumpEntryLines ("version", YVal.s m.version) ++
        (dumpEntryLines ("author", YVal.s m.author) ++
          (dumpEntryLines ("category", YVal.s m.category) ++
            (dumpEntryLines ("tags", YVal.l m.tags) ++
              (dumpEntryLines ("merged_from", YVal.l m.merged_from) ++ [])))))
      = some ([], [("version", YVal.s m.version), ("author", YVal.s m.author),
          ("category", YVal.s m.category), ("tags", YVal.l m.tags),
          ("merged_from", YVal.l m.merged_from)]) :=
    loadLinesRev_entry 'v' "ersion".data (by decide) (by decide) (by decide)
      ⟨h3.2.1, h3.2.2⟩ t4
  have t2 : loadLinesRev (dumpEntryLines ("description", YVal.s m.description) ++
        (dumpEntryLines ("version", YVal.s m.version) ++
          (dumpEntryLines ("author", YVal.s m.author) ++
            (dumpEntryLines ("category", YVal.s m.category) ++
              (dumpEntryLines ("tags", YVal.l m.tags) ++
                (dumpEntryLines ("merged_from", YVal.l m.merged_from) ++ []))))))
      = some ([], [("description", YVal.s m.description), ("version", YVal.s m.version),
          ("author", YVal.s m.author), ("category", YVal.s m.category),
          ("tags", YVal.l m.tags), ("merged_from", YVal.l m.merged_from)]) :=
    loadLinesRev_entry 'd' "escription".data (by decide) (by decide) (by decide)
      ⟨h2.2.1, h2.2.2⟩ t3
  have t1 : loadLinesRev (dumpEntryLines ("name", YVal.s m.name) ++
        (dumpEntryLines ("description", YVal.s m.description) ++
          (dumpEntryLines ("version", YVal.s m.version) ++
            (dumpEntryLines ("author", YVal.s m.author) ++
              (dumpEntryLines ("category", YVal.s m.category) ++
                (dumpEntryLines ("tags", YVal.l m.tags) ++
                  (dumpEntryLines ("merged_from", YVal.l m.merged_from) ++ [])))))))
      = some ([], [("name", YVal.s m.name), ("description", YVal.s m.description),
          ("version", YVal.s m.version), ("author", YVal.s m.author),
          ("category", YVal.s m.category), ("tags", YVal.l m.tags),
          ("merged_from", YVal.l m.merged_from)]) :=
    loadLinesRev_entry 'n' "ame".data (by decide) (by decide) (by decide)
      ⟨h1.2.1, h1.2.2⟩ t2
  unfold dumpLines masterMetadata
  simp only [List.map_cons, List.map_nil, List.flatten_cons, List.flatten_nil]
  exact t1

lemma dumpLines_master_ne (m : MasterSkill) : dumpLines (masterMetadata m) ≠ [] := by
  unfold dumpLines masterMetadata
  simp [dumpEntryLines]

set_option maxRecDepth 20000 in
/-- C4: every document the writer (`publish_consolidated_skill`) produces for a
master record whose scalar fields are plain one-line scalars and whose list
items are plain, is parsed back by `_parse_skill_file` into the same name,
description, version, author, category, tags and merged_from metadata, with
the body recovered up to the incidental surrounding whitespace the writer
adds: parse after write is the identity on the semantic fields. -/
theorem C4_roundtrip (fp : String) (m : MasterSkill)
    (hname : m.name ≠ "")
    (h1 : plainScalar m.name) (h2 : plainScalar m.description)
    (h3 : plainScalar m.version) (h4 : plainScalar m.author)
    (h5 : plainScalar m.category)
    (h6 : ∀ v ∈ m.tags, '\n' ∉ v.data ∧ v ≠ ⟨[squote, squote]⟩)
    (h7 : ∀ v ∈ m.merged_from, '\n' ∉ v.data ∧ v ≠ ⟨[squote, squote]⟩) :
    parse_skill_file fp (publish_content m)
      = some { name := YVal.s m.name, description := YVal.s m.description,
               version := YVal.s m.version, author := YVal.s m.author,
               category := YVal.s m.category, tags := YVal.l m.tags,
               metadata := masterMetadata m, body := pyStripStr m.body,
               file_path := fp } := by
  have hne : dumpLines (masterMetadata m) ≠ [] := dumpLines_master_ne m
  have hok : ∀ l ∈ dumpLines (masterMetadata m), '\n' ∉ l ∧ l ≠ ['-', '-', '-'] :=
    dumpLines_master_ok m h1 h2 h3 h4 h5 (fun v hv => (h6 v hv).1)
      (fun v hv => (h7 v hv).1)
  have hsf : splitFrontmatter (publish_content m).data
      = some (interNL (dumpLines (masterMetadata m)),
          '\n' :: (m.body.data ++ ['\n'])) := by
    show splitAtMarker (yamlDumpChars (masterMetadata m) ++
        '-' :: '-' :: '-' :: '\n' :: '\n' :: (m.body.data ++ ['\n'])) = _
    unfold yamlDumpChars
    rw [joinNL_eq_interNL _ hne, List.append_assoc, List.singleton_append]
    exact splitAtMarker_join _ _ hne hok
  have hload : yamlLoad (interNL (dumpLines (masterMetadata m)))
      = some (masterMetadata m) := by
    unfold yamlLoad
    rw [splitLines_interNL _ hne (fun l hl => (hok l hl).1),
      loadLinesRev_master m h1 h2 h3 h4 h5 (fun v hv => (h6 v hv).2)
        (fun v hv => (h7 v hv).2)]
  have htru : ¬(truthy (getY (masterMetadata m) "name" (YVal.s "")) = false) := by
    have hg : getY (masterMetadata m) "name" (YVal.s "") = YVal.s m.name := rfl
    rw [hg]
    simp [truthy, hname]
  unfold parse_skill_file
  rw [hsf]
  simp only [Option.some_bind]
  rw [hload]
  simp only [Option.some_bind]
  rw [if_neg htru, pyStrip_wrap]
  rfl

set_option maxRecDepth 20000 in
theorem C4_roundtrip_witness :
    parse_skill_file "skills/master.md" (publish_content
      { name := "Skill_Master", description := "Merged description.",
        version := "1.2.4", author := "Unknown", category := "general",
        tags := ["alpha", "beta"], merged_from := ["Skill_A", "Skill_B"],
        consolidated_at := "2026-01-01T00:00:00", body := "# Master\nBody text." })
      = some { name := YVal.s "Skill_Master",
               description := YVal.s "Merged description.",
               version := YVal.s "1.2.4", author := YVal.s "Unknown",
               category := YVal.s "general", tags := YVal.l ["alpha", "beta"],
               metadata := masterMetadata
                 { name := "Skill_Master", description := "Merged description.",
                   version := "1.2.4", author := "Unknown", category := "general",
                   tags := ["alpha", "beta"], merged_from := ["Skill_A", "Skill_B"],
                   consolidated_at := "2026-01-01T00:00:00",
                   body := "# Master\nBody text." },
               body := pyStripStr "# Master\nBody text.",
               file_path := "skills/master.md" } :=
  C4_roundtrip "skills/master.md" _ (by decide) (by decide) (by decide) (by decide)
    (by decide) (by decide) (by decide) (by decide)
